import Mathlib

/-!
Verification of the core claims about the bakaos kernel: the memory-space
builder and program break (crates/paging/src/memory.rs), the VFS directory
tree and RAM-file inode (crates/filesystem-abstractions/src/tree.rs), the
brk and pipe2 syscall handlers (kernel/src/syscalls), and the kernel
message ring buffer (kernel/src/firmwares/console.rs).

Machine integers (`usize`, `isize`) are modelled as `Nat`/`Int` with
explicit wrap-around where a cast occurs in the source.  Physical memory is
a flat byte function `Nat → Nat`; the high-half window of the kernel maps
physical address `p` at a fixed offset, so cross-space copies are modelled
as writes at `ppn * 4096 + in_page_offset`.
-/

set_option autoImplicit false

namespace BakaOS

/-- constants::PAGE_SIZE. -/
def PAGE_SIZE : Nat := 4096

/-- constants::USER_STACK_SIZE (1 MiB). -/
def USER_STACK_SIZE : Nat := 0x100000

/-- usize::MAX, used by MemorySpace::empty for placeholder values. -/
def USIZE_MAX : Nat := 2 ^ 64 - 1

/-- Wrapping cast of an `isize`/`i64` value to `usize` (`as usize` in Rust). -/
def intAsUsize (i : Int) : Nat := (i % (2 ^ 64)).toNat

/-! ### Page table entry flags

`paging::PageTableEntryFlags` is a bitset (RISC-V leaf PTE layout); flags
combine with bitwise or. -/

def FLAG_VALID : Nat := 1
def FLAG_READABLE : Nat := 2
def FLAG_WRITABLE : Nat := 4
def FLAG_EXECUTABLE : Nat := 8
def FLAG_USER : Nat := 16

/-! ### Frame allocator -/

/-- Modelled from the spec: the frame allocator (crates/allocation/src/frame.rs
is not under src/).  Spec §4.1: deallocation "pushes the frame onto a free
list"; allocation hands out a frame from the free list, or else the next
frame of the contiguous pool; "content is not zeroed unless the caller
requests it", so allocation does not touch physical memory. -/
structure AllocState where
  next : Nat
  freed : List Nat
deriving Repr, DecidableEq

/-- Modelled from the spec: `allocation::alloc_frame`.  Returns the physical
page number of the handed-out frame.  (Out-of-memory is not modelled; the
claims under study never exhaust the pool.) -/
def alloc_frame (a : AllocState) : Nat × AllocState :=
  match a with
  | ⟨next, []⟩ => (next, ⟨next + 1, []⟩)
  | ⟨next, f :: rest⟩ => (f, ⟨next, rest⟩)

/-- Modelled from the spec: dropping a `TrackedFrame` returns it to the
allocator's free list. -/
def drop_frame (ppn : Nat) (a : AllocState) : AllocState :=
  ⟨a.next, ppn :: a.freed⟩

/-! ### Physical memory and the page table -/

/-- Flat physical memory, byte addressed. -/
abbrev Mem := Nat → Nat

def writeByte (m : Mem) (addr v : Nat) : Mem :=
  fun a => if a = addr then v else m a

def writeBytesAt : Mem → Nat → List Nat → Mem
  | m, _, [] => m
  | m, a, b :: rest => writeBytesAt (writeByte m a b) (a + 1) rest

/-- Modelled from the spec: the architecture-neutral page table
(crates/paging page-table sources are not under src/) is modelled by its
leaf mapping, a list of (vpn, ppn, flags) entries with the most recent
first.  Spec §4.2 lists map_single / unmap_single / translate. -/
abbrev PageTbl := List (Nat × Nat × Nat)

/-- Modelled from the spec: `map_single(vpn, ppn, flags)` installs the leaf
entry. -/
def map_single (pt : PageTbl) (vpn ppn flags : Nat) : PageTbl :=
  (vpn, ppn, flags) :: pt

/-- Modelled from the spec: `unmap_single(vpn)` clears the leaf entry. -/
def unmap_single (pt : PageTbl) (vpn : Nat) : PageTbl :=
  pt.filter (fun e => e.1 ≠ vpn)

/-- Modelled from the spec: `translate(vpn) → option (ppn, flags)`. -/
def translate (pt : PageTbl) (vpn : Nat) : Option (Nat × Nat) :=
  (pt.find? (fun e => e.1 == vpn)).map (fun e => e.2)

/-- The physical byte address backing virtual address `va`, when mapped:
the high-half alias of spec §4.2 shifted back to physical. -/
def physOf (pt : PageTbl) (va : Nat) : Option Nat :=
  (translate pt (va / PAGE_SIZE)).map (fun e => e.1 * PAGE_SIZE + va % PAGE_SIZE)

/-- Reading one byte at virtual address `va` through `pt`. -/
def readByte (pt : PageTbl) (m : Mem) (va : Nat) : Option Nat :=
  (physOf pt va).map m

/-- Modelled from the spec: `activated_copy_data_to_other(other, dst_va,
bytes)` walks `other`'s mappings for each destination byte and writes
through the high-half alias, returning the count copied. -/
def activated_copy_data_to_other (pt : PageTbl) (m : Mem) (va : Nat) :
    List Nat → Mem × Nat
  | [] => (m, 0)
  | b :: rest =>
    match physOf pt va with
    | none => (m, 0)
    | some p =>
      let r := activated_copy_data_to_other pt (writeByte m p b) (va + 1) rest
      (r.1, r.2 + 1)

/-! ### Mapping areas (paging::memory::MappingArea) -/

inductive AreaType where
  | UserElf
  | UserStackGuardBase
  | UserStack
  | UserStackGuardTop
  | UserBrk
  | Kernel
deriving Repr, DecidableEq

inductive MapTy where
  | Identity
  | Framed
  | Direct
  | Linear
deriving Repr, DecidableEq

/-- `MappingArea`: a half-open VPN range plus the owned frames
(`BTreeMap<VirtualPageNum, TrackedFrame>`, modelled as an association list
of (vpn, ppn); lookup / insert-returning-old / remove-returning-old follow
the BTreeMap semantics). -/
structure MappingArea where
  range_start : Nat
  range_end : Nat
  area_type : AreaType
  map_type : MapTy
  allocated_frames : List (Nat × Nat)
  permissions : Nat
deriving Repr, DecidableEq

def framesLookup : List (Nat × Nat) → Nat → Option Nat
  | [], _ => none
  | (k, v) :: rest, key => if k = key then some v else framesLookup rest key

/-- BTreeMap::insert: replace an existing binding (returning the old value)
or add a new one. -/
def framesInsert : List (Nat × Nat) → Nat → Nat → List (Nat × Nat) × Option Nat
  | [], key, v => ([(key, v)], none)
  | (k, old) :: rest, key, v =>
    if k = key then ((k, v) :: rest, some old)
    else
      let r := framesInsert rest key v
      ((k, old) :: r.1, r.2)

/-- BTreeMap::remove: remove a binding, returning the old value. -/
def framesRemove : List (Nat × Nat) → Nat → List (Nat × Nat) × Option Nat
  | [], _ => ([], none)
  | (k, v) :: rest, key =>
    if k = key then (rest, some v)
    else
      let r := framesRemove rest key
      ((k, v) :: r.1, r.2)

/-- `MappingArea::apply_mapping_single` with `frame = None`: allocate a
frame, register it in the page table with the area's permissions, then take
ownership of it (an old binding, were one present, would be dropped). -/
def apply_mapping_single (area : MappingArea) (pt : PageTbl) (al : AllocState)
    (vpn : Nat) : MappingArea × PageTbl × AllocState :=
  let fa := alloc_frame al
  let pt' := map_single pt vpn fa.1 area.permissions
  let ins := framesInsert area.allocated_frames vpn fa.1
  let al' := match ins.2 with
    | some oldPpn => drop_frame oldPpn fa.2
    | none => fa.2
  ({ area with allocated_frames := ins.1 }, pt', al')

/-- Iterating `apply_mapping_single` over `count` consecutive VPNs starting
at `start` (the iteration of a `VirtualPageNumRange`). -/
def apply_mapping_from : Nat → Nat → MappingArea → PageTbl → AllocState →
    MappingArea × PageTbl × AllocState
  | _, 0, area, pt, al => (area, pt, al)
  | start, Nat.succ n, area, pt, al =>
    let r := apply_mapping_single area pt al start
    apply_mapping_from (start + 1) n r.1 r.2.1 r.2.2

/-- `MappingArea::apply_mapping`: map every VPN of the area's range. -/
def apply_mapping (area : MappingArea) (pt : PageTbl) (al : AllocState) :
    MappingArea × PageTbl × AllocState :=
  apply_mapping_from area.range_start (area.range_end - area.range_start) area pt al

/-- `MappingArea::revoke_mapping_single`: clear the leaf PTE, then drop the
owned frame (returning it to the allocator) when one is present. -/
def revoke_mapping_single (area : MappingArea) (pt : PageTbl) (al : AllocState)
    (vpn : Nat) : MappingArea × PageTbl × AllocState :=
  let pt' := unmap_single pt vpn
  let rem := framesRemove area.allocated_frames vpn
  let al' := match rem.2 with
    | some p => drop_frame p al
    | none => al
  ({ area with allocated_frames := rem.1 }, pt', al')

def revoke_mapping_from : Nat → Nat → MappingArea → PageTbl → AllocState →
    MappingArea × PageTbl × AllocState
  | _, 0, area, pt, al => (area, pt, al)
  | start, Nat.succ n, area, pt, al =>
    let r := revoke_mapping_single area pt al start
    revoke_mapping_from (start + 1) n r.1 r.2.1 r.2.2

/-! ### Memory space (paging::memory::MemorySpace) -/

structure MemorySpace where
  page_table : PageTbl
  mapping_areas : List MappingArea
  brk_area_idx : Nat
  brk_start : Nat
  stack_guard_base : Nat × Nat
  stack_range : Nat × Nat
  stack_gurad_top : Nat × Nat
  elf_area : Nat × Nat
  kernel_registered : Bool
deriving Repr, DecidableEq

/-- `MemorySpace::empty` (placeholder fields are usize::MAX / length 0;
`register_kernel_area` only touches the kernel half of the root table,
which has no user leaf entries, so it is recorded as a flag). -/
def MemorySpace.empty : MemorySpace :=
  { page_table := []
    mapping_areas := []
    brk_area_idx := USIZE_MAX
    brk_start := USIZE_MAX
    stack_guard_base := (USIZE_MAX, 0)
    stack_range := (USIZE_MAX, 0)
    stack_gurad_top := (USIZE_MAX, 0)
    elf_area := (USIZE_MAX, 0)
    kernel_registered := false }

/-- `MemorySpace::map_area`: eagerly allocate frames per VPN, install the
leaf PTEs and append the area. -/
def map_area (ms : MemorySpace) (al : AllocState) (area : MappingArea) :
    MemorySpace × AllocState :=
  let r := apply_mapping area ms.page_table al
  ({ ms with page_table := r.2.1, mapping_areas := ms.mapping_areas ++ [r.1] }, r.2.2)

/-- `MemorySpace::increase_brk(new_end_vpn)`.  `diff_page_count` is an
`isize` difference; the `page_count as usize` cast wraps. -/
def increase_brk (ms : MemorySpace) (al : AllocState) (new_end_vpn : Nat) :
    Except String (MemorySpace × AllocState) :=
  match ms.mapping_areas.get? ms.brk_area_idx with
  | none => Except.error "no brk area"
  | some brkArea =>
    if new_end_vpn < brkArea.range_start then
      Except.error "New end is less than the current start"
    else
      let old_end_vpn := brkArea.range_end
      let page_count : Int := (new_end_vpn : Int) - (old_end_vpn : Int)
      if page_count = 0 then Except.ok (ms, al)
      else
        let r := apply_mapping_from old_end_vpn (intAsUsize page_count) brkArea
          ms.page_table al
        let a' := { r.1 with range_end := new_end_vpn }
        Except.ok
          ({ ms with
              page_table := r.2.1
              mapping_areas := ms.mapping_areas.set ms.brk_area_idx a' }, r.2.2)

/-- `MemorySpace::shrink_brk(new_end_vpn)`. -/
def shrink_brk (ms : MemorySpace) (al : AllocState) (new_end_vpn : Nat) :
    Except String (MemorySpace × AllocState) :=
  match ms.mapping_areas.get? ms.brk_area_idx with
  | none => Except.error "no brk area"
  | some brkArea =>
    if new_end_vpn > brkArea.range_end then
      Except.error "New end is greater than the current end"
    else if new_end_vpn < brkArea.range_start then
      Except.error "New end is less than the current start"
    else
      let old_end_vpn := brkArea.range_end
      let page_count : Int := (old_end_vpn : Int) - (new_end_vpn : Int)
      if page_count = 0 then Except.ok (ms, al)
      else
        let r := revoke_mapping_from new_end_vpn (intAsUsize page_count) brkArea
          ms.page_table al
        let a' := { r.1 with range_end := new_end_vpn }
        Except.ok
          ({ ms with
              page_table := r.2.1
              mapping_areas := ms.mapping_areas.set ms.brk_area_idx a' }, r.2.2)

/-! ### Aux vector keys (paging::memory) -/

def AT_NULL : Nat := 0
def AT_PHDR : Nat := 3
def AT_PHENT : Nat := 4
def AT_PHNUM : Nat := 5
def AT_PAGESZ : Nat := 6
def AT_BASE : Nat := 7
def AT_FLAGS : Nat := 8
def AT_ENTRY : Nat := 9
def AT_UID : Nat := 11
def AT_EUID : Nat := 12
def AT_GID : Nat := 13
def AT_EGID : Nat := 14
def AT_HWCAP : Nat := 16
def AT_CLKTCK : Nat := 17
def AT_SECURE : Nat := 23
def AT_RANDOM : Nat := 25

/-! ### Memory-space builder (MemorySpaceBuilder::from_elf) -/

/-- One ELF64 program header as the `xmas_elf` crate (external) presents it
to `from_elf`: segment type and PF_R/PF_W/PF_X flags, file offset, virtual
address, file size and memory size. -/
structure ProgHeader where
  is_load : Bool
  is_read : Bool
  is_write : Bool
  is_execute : Bool
  offset : Nat
  virtual_addr : Nat
  file_size : Nat
  mem_size : Nat
deriving Repr, DecidableEq

/-- A parsed ELF64 image: the raw bytes plus the header fields `from_elf`
consumes (`ElfFile::new` parsing itself is external to the repository). -/
structure ElfFile where
  data : List Nat
  phs : List ProgHeader
  entry_point : Nat
  ph_offset : Nat
  ph_entry_size : Nat
  ph_count : Nat

/-- Accumulator of the PT_LOAD loop in `from_elf`. -/
structure LoadState where
  ms : MemorySpace
  al : AllocState
  mem : Mem
  min_start_vpn : Nat
  max_end_vpn : Nat
  p_head : Nat

/-- One iteration of the PT_LOAD loop of `from_elf` (non-Load headers are
filtered out).  The segment's file bytes `elf_data[offset..offset+file_size]`
are copied to `virtual_addr` through the freshly mapped area; bytes past
`file_size` are not written. -/
def load_ph (data : List Nat) (st : LoadState) (ph : ProgHeader) : LoadState :=
  if ph.is_load then
    let start := ph.virtual_addr
    let endAddr := start + ph.mem_size
    let p_head := if st.p_head = 0 then start else st.p_head
    let min_start_vpn := min st.min_start_vpn (start / PAGE_SIZE)
    let max_end_vpn := max st.max_end_vpn (endAddr / PAGE_SIZE)
    let perms := (FLAG_VALID ||| FLAG_USER)
      ||| (if ph.is_read then FLAG_READABLE else 0)
      ||| (if ph.is_write then FLAG_WRITABLE else 0)
      ||| (if ph.is_execute then FLAG_EXECUTABLE else 0)
    let area : MappingArea :=
      ⟨start / PAGE_SIZE, (endAddr + PAGE_SIZE - 1) / PAGE_SIZE,
        AreaType.UserElf, MapTy.Framed, [], perms⟩
    let r := map_area st.ms st.al area
    let seg := (data.drop ph.offset).take ph.file_size
    let c := activated_copy_data_to_other r.1.page_table st.mem start seg
    ⟨r.1, r.2, c.1, min_start_vpn, max_end_vpn, p_head⟩
  else st

structure MemorySpaceBuilder where
  memory_space : MemorySpace
  entry_pc : Nat
  stack_top : Nat
  argc : Nat
  argv_base : Nat
  envp_base : Nat
  auxv : List (Nat × Nat)

/-- Step 4 of `from_elf`: the single-page no-permission stack-guard-low
area at `vpn` (the source records its range with length USER_STACK_SIZE). -/
def place_guard_base (x : MemorySpace × AllocState) (vpn : Nat) :
    MemorySpace × AllocState :=
  let r := map_area x.1 x.2
    ⟨vpn, vpn + 1, AreaType.UserStackGuardBase, MapTy.Framed, [], 0⟩
  ({ r.1 with
      stack_guard_base := (vpn * PAGE_SIZE, vpn * PAGE_SIZE + USER_STACK_SIZE) },
    r.2)

/-- Step 5 of `from_elf`: the user stack (USER_STACK_SIZE bytes, U+R+W). -/
def place_stack (x : MemorySpace × AllocState) (vpn : Nat) :
    MemorySpace × AllocState :=
  let r := map_area x.1 x.2
    ⟨vpn, vpn + USER_STACK_SIZE / PAGE_SIZE, AreaType.UserStack, MapTy.Framed, [],
      FLAG_VALID ||| FLAG_WRITABLE ||| FLAG_READABLE ||| FLAG_USER⟩
  ({ r.1 with
      stack_range := (vpn * PAGE_SIZE, vpn * PAGE_SIZE + USER_STACK_SIZE) },
    r.2)

/-- Step 6 of `from_elf`: the single-page stack-guard-high area. -/
def place_guard_top (x : MemorySpace × AllocState) (vpn : Nat) :
    MemorySpace × AllocState :=
  let r := map_area x.1 x.2
    ⟨vpn, vpn + 1, AreaType.UserStackGuardTop, MapTy.Framed, [], 0⟩
  ({ r.1 with
      stack_gurad_top := (vpn * PAGE_SIZE, vpn * PAGE_SIZE + PAGE_SIZE) },
    r.2)

/-- Step 7 of `from_elf`: the zero-page brk area (U+R+W), recording its
index among the mapping areas and the brk start address. -/
def place_brk (x : MemorySpace × AllocState) (vpn : Nat) :
    MemorySpace × AllocState :=
  let r := map_area x.1 x.2
    ⟨vpn, vpn, AreaType.UserBrk, MapTy.Framed, [],
      FLAG_VALID ||| FLAG_WRITABLE ||| FLAG_READABLE ||| FLAG_USER⟩
  let idx := r.1.mapping_areas.findIdx
    (fun a => decide (a.area_type = AreaType.UserBrk))
  ({ r.1 with brk_area_idx := idx, brk_start := vpn * PAGE_SIZE }, r.2)

/-- The auxv entries `from_elf` records (AT_PHDR is first-segment vaddr
plus e_phoff). -/
def elf_auxv (elf : ElfFile) (p_head : Nat) : List (Nat × Nat) :=
  [(AT_PHDR, p_head + elf.ph_offset), (AT_PHENT, elf.ph_entry_size),
   (AT_PHNUM, elf.ph_count), (AT_PAGESZ, PAGE_SIZE), (AT_BASE, 0),
   (AT_FLAGS, 0), (AT_ENTRY, elf.entry_point), (AT_UID, 0), (AT_EUID, 0),
   (AT_GID, 0), (AT_EGID, 0), (AT_HWCAP, 0), (AT_CLKTCK, 125000000),
   (AT_SECURE, 0)]

/-- `MemorySpaceBuilder::from_elf`, on an already parsed image: load the
PT_LOAD segments, record the auxv entries, then lay out stack-guard-low,
stack (USER_STACK_SIZE / PAGE_SIZE = 256 pages), stack-guard-high and the
empty brk area, each one page past the previous.  Address ranges are
stored as (start, end) pairs. -/
def from_elf (elf : ElfFile) (al : AllocState) (mem : Mem) :
    MemorySpaceBuilder × AllocState × Mem :=
  let st := elf.phs.foldl (load_ph elf.data)
    ⟨{ MemorySpace.empty with kernel_registered := true }, al, mem, USIZE_MAX, 0, 0⟩
  let ms1 := { st.ms with
    elf_area := (st.min_start_vpn * PAGE_SIZE, st.max_end_vpn * PAGE_SIZE) }
  let x := place_brk
    (place_guard_top
      (place_stack
        (place_guard_base (ms1, st.al) (st.max_end_vpn + 1))
        (st.max_end_vpn + 2))
      (st.max_end_vpn + 2 + USER_STACK_SIZE / PAGE_SIZE))
    (st.max_end_vpn + 2 + USER_STACK_SIZE / PAGE_SIZE + 1)
  let stack_top := (st.max_end_vpn + 2 + USER_STACK_SIZE / PAGE_SIZE) * PAGE_SIZE
  (⟨x.1, elf.entry_point, stack_top, 0, stack_top, stack_top,
    elf_auxv elf st.p_head⟩, x.2, st.mem)

/-! ### Stack initialization (MemorySpaceBuilder::init_stack)

Each `push<T>` decrements the stack pointer by `size_of::<T>()`, aligns it
down to `align_of::<T>()` and writes the value's bytes into the new space
through `activated_copy_val_to_other`; the model records each write as a
(address, little-endian bytes) event. -/

def align_down (a n : Nat) : Nat := a - a % n

/-- Little-endian byte encoding, `width` bytes. -/
def leBytes : Nat → Nat → List Nat
  | _, 0 => []
  | v, Nat.succ w => v % 256 :: leBytes (v / 256) w

structure StackState where
  stack_top : Nat
  writes : List (Nat × List Nat)

/-- `MemorySpaceBuilder::push<T>`. -/
def push_val (st : StackState) (size align : Nat) (bytes : List Nat) : StackState :=
  let top := align_down (st.stack_top - size) align
  ⟨top, (top, bytes) :: st.writes⟩

def push_u8 (st : StackState) (b : Nat) : StackState := push_val st 1 1 [b]

/-- Push of any 8-byte value (u64, usize, VirtualAddress, AuxVecKey). -/
def push_usize (st : StackState) (v : Nat) : StackState :=
  push_val st 8 8 (leBytes v 8)

/-- Push of an `AuxVecEntry` (repr C: key then value, 16 bytes, align 8). -/
def push_auxv_entry (st : StackState) (key value : Nat) : StackState :=
  push_val st 16 8 (leBytes key 8 ++ leBytes value 8)

/-- Steps 1/2 of `init_stack`: for each string, in reverse order, push the
NUL terminator then the bytes in reverse, recording each string's start. -/
def push_strings (st : StackState) (strs : List (List Nat)) :
    StackState × List Nat :=
  strs.reverse.foldl
    (fun acc s =>
      let st1 := push_u8 acc.1 0
      let st2 := s.reverse.foldl push_u8 st1
      (st2, acc.2 ++ [st2.stack_top]))
    (st, [])

/-- Result of `init_stack`; `platform_start` is the stack pointer right
after the platform string was pushed (the string's first byte) and
`aux_random_write` is the single write event of step 4 ("Setup 16 random
bytes for aux vector"). -/
structure InitStackResult where
  stack_top : Nat
  argc : Nat
  argv_base : Nat
  envp_base : Nat
  aux_random_base : Nat
  platform_start : Nat
  aux_random_write : Nat × List Nat
  writes : List (Nat × List Nat)
deriving Repr, DecidableEq

/-- `MemorySpaceBuilder::init_stack` (strings given as UTF-8 byte lists). -/
def init_stack (b : MemorySpaceBuilder) (args envp : List (List Nat)) :
    InitStackResult :=
  let st0 : StackState := ⟨b.stack_top, []⟩
  let pe := push_strings st0 envp
  let envps := pe.2
  let pa := push_strings pe.1 args
  let argvs := pa.2
  let st1 : StackState := ⟨align_down pa.1.stack_top 8, pa.1.writes⟩
  let PLATFORM : List Nat := [0x52, 0x49, 0x53, 0x43, 0x2d, 0x56, 0x36, 0x34, 0x00]
  let st2 : StackState := ⟨align_down (st1.stack_top - 9) 8 + 9, st1.writes⟩
  let st3 := PLATFORM.reverse.foldl push_u8 st2
  let platform_start := st3.stack_top
  let st4 := push_usize st3 0xdeadbeef
  let aux_random_base := st4.stack_top
  let aux_random_write := (st4.stack_top, leBytes 0xdeadbeef 8)
  let st5 : StackState := ⟨align_down st4.stack_top 16, st4.writes⟩
  let st6 := push_auxv_entry st5 AT_NULL 0
  let st7 := push_usize st6 aux_random_base
  let st8 := push_usize st7 AT_RANDOM
  let st9 := b.auxv.reverse.foldl
    (fun s kv => push_usize (push_usize s kv.2) kv.1) st8
  let st10 := push_usize st9 0
  let st11 := envps.foldl push_usize st10
  let envp_base := st11.stack_top
  let st12 := push_usize st11 0
  let st13 := argvs.foldl push_usize st12
  let argv_base := st13.stack_top
  let argc := args.length
  let st14 := push_usize st13 argc
  ⟨st14.stack_top, argc, argv_base, envp_base, aux_random_base,
    platform_start, aux_random_write, st14.writes⟩

/-! ### The brk syscall handler (kernel/src/syscalls/task.rs, BrkSyscall) -/

/-- The task state the brk handler touches: the byte-granular brk position
kept in the task control block, the memory space and the frame allocator. -/
structure TaskState where
  brk_pos : Nat
  ms : MemorySpace
  al : AllocState
deriving DecidableEq

/-- `BrkSyscall::handle` (`SyscallResult = Result<isize, isize>`).  Indexing
`mapping_areas[brk_area_idx]` out of bounds would panic; that is modelled as
the error branch and never reached from a well-formed task state. -/
def sys_brk (st : TaskState) (brk : Nat) : (Except Int Int) × TaskState :=
  let current_brk := st.brk_pos
  if brk = 0 ∨ brk = current_brk then (Except.ok (current_brk : Int), st)
  else if brk < current_brk then (Except.error (-1), st)
  else
    match st.ms.mapping_areas.get? st.ms.brk_area_idx with
    | none => (Except.error (-1), st)
    | some brkArea =>
      let brk_page_end := brkArea.range_end * PAGE_SIZE
      if brk < brk_page_end then (Except.ok (brk : Int), { st with brk_pos := brk })
      else
        let vpn := (brk + PAGE_SIZE - 1) / PAGE_SIZE
        match increase_brk st.ms st.al vpn with
        | Except.ok r => (Except.ok (brk : Int), ⟨brk, r.1, r.2⟩)
        | Except.error _ => (Except.error (-1), st)

/-! ### RAM file inode (filesystem-abstractions/src/tree.rs, RamFileInode) -/

inductive RustPanic where
  | sliceIndexOutOfRange
deriving Repr, DecidableEq

structure RamFileInodeInner where
  frames : List Nat
  size : Nat
  filename : String
deriving Repr, DecidableEq

/-- `RamFileInode::new`. -/
def ram_file_new (filename : String) : RamFileInodeInner := ⟨[], 0, filename⟩

/-- `Vec::resize_with` growth: allocate `n` fresh frames in order. -/
def alloc_frames_run : Nat → AllocState → List Nat × AllocState
  | 0, a => ([], a)
  | Nat.succ n, a =>
    let f := alloc_frame a
    let r := alloc_frames_run n f.2
    (f.1 :: r.1, r.2)

/-- The write loop of `RamFileInode::writeat`: iterate the frame slice,
copying `in_page_len = min(4096, end_size - current)` bytes of the buffer
at physical offset `current % 4096` into each frame (faithfully keeping the
source's arithmetic, which can run past a frame's 4096 bytes). -/
def ram_write_loop : List Nat → Nat → Nat → Nat → List Nat → Mem → Mem × Nat
  | [], current, _, _, _, m => (m, current)
  | ppn :: rest, current, offset, end_size, buffer, m =>
    let in_page_start := current % 4096
    let in_page_len := min 4096 (end_size - current)
    let chunk := (buffer.drop (current - offset)).take in_page_len
    let m' := writeBytesAt m (ppn * 4096 + in_page_start) chunk
    ram_write_loop rest (current + in_page_len) offset end_size buffer m'

/-- `RamFileInode::writeat`.  The slice expression
`&inner.frames[offset / 4096..end_size / 4096 + 1]` panics when its end
bound exceeds the frame vector's length; the panic is modelled as
`RustPanic.sliceIndexOutOfRange`. -/
def ram_writeat (st : RamFileInodeInner) (al : AllocState) (m : Mem)
    (offset : Nat) (buffer : List Nat) :
    Except RustPanic (Nat × RamFileInodeInner × AllocState × Mem) :=
  let end_size := offset + buffer.length
  let grow :=
    if end_size > st.size then
      let required_pages := (end_size + 4095) / 4096
      let alr := alloc_frames_run (required_pages - st.frames.length) al
      ({ st with frames := st.frames ++ alr.1, size := end_size }, alr.2)
    else (st, al)
  let st1 := grow.1
  if st1.frames.length < end_size / 4096 + 1 then
    Except.error RustPanic.sliceIndexOutOfRange
  else
    let slice := (st1.frames.drop (offset / 4096)).take
      (end_size / 4096 + 1 - offset / 4096)
    let r := ram_write_loop slice offset offset end_size buffer m
    Except.ok (r.2 - offset, st1, grow.2, r.1)

def readBytesAt (m : Mem) (a n : Nat) : List Nat :=
  (List.range n).map (fun i => m (a + i))

/-- The read loop of `RamFileInode::readat` (`Vec` indexing out of bounds
would panic). -/
def ram_read_loop (frames : List Nat) (m : Mem) (end_size : Nat)
    (current : Nat) : Except RustPanic (List Nat) :=
  if current < end_size then
    match frames.get? (current / 4096) with
    | none => Except.error RustPanic.sliceIndexOutOfRange
    | some ppn =>
      (ram_read_loop frames m end_size (current + min 4096 (end_size - current))).map
        (fun rest => readBytesAt m (ppn * 4096 + current % 4096)
          (min 4096 (end_size - current)) ++ rest)
  else Except.ok []
termination_by end_size - current
decreasing_by simp_wf; omega

/-- `RamFileInode::readat`; returns the byte count and the bytes read. -/
def ram_readat (st : RamFileInodeInner) (m : Mem) (offset bufLen : Nat) :
    Except RustPanic (Nat × List Nat) :=
  if offset ≥ st.size then Except.ok (0, [])
  else
    let end_size := min st.size (offset + bufLen)
    (ram_read_loop st.frames m end_size offset).map
      (fun bytes => (end_size - offset, bytes))

/-! ### The pipe2 syscall handler (kernel/src/syscalls/file.rs, Pipe2Syscall) -/

inductive SysErr where
  | TooManyOpenFiles
  | BadAddress
deriving Repr, DecidableEq

/-- Wrapping cast of a usize to i32 (`read_end as i32`). -/
def toI32 (n : Nat) : Int :=
  if n % 2 ^ 32 < 2 ^ 31 then ((n % 2 ^ 32 : Nat) : Int)
  else ((n % 2 ^ 32 : Nat) : Int) - 2 ^ 32

/-- Sign-extending cast of an i32 value to usize (`guard.read_end as usize`). -/
def i32AsUsize (v : Int) : Nat := (v % (2 ^ 64)).toNat

/-- Modelled from the spec: the per-task file-descriptor table ("stored in
a per-task indexed table with allocation and removal"; the concrete
FileDescriptorTable source is not under src/).  A fixed array of slots;
`allocate` stores the value at the lowest free slot, failing when the table
is full; `remove` clears a slot. -/
def fd_allocate (slots : List (Option Nat)) (v : Nat) :
    Option (Nat × List (Option Nat)) :=
  match slots with
  | [] => none
  | none :: rest => some (0, some v :: rest)
  | some x :: rest =>
    match fd_allocate rest v with
    | some r => some (r.1 + 1, some x :: r.2)
    | none => none

/-- Modelled from the spec: FileDescriptorTable::remove. -/
def fd_remove (slots : List (Option Nat)) (i : Nat) : List (Option Nat) :=
  slots.set i none

/-- The user-memory `FdPair` struct the handler writes through the page
guard (two i32 fields). -/
structure FdPair where
  read_end : Int
  write_end : Int
deriving Repr, DecidableEq

/-- `Pipe2Syscall::handle`.  `guard = none` models a failed page guard;
`rb` / `wb` stand for the fresh pipe read/write-end descriptor builders.
Returns (result, fd table, user FdPair memory). -/
def sys_pipe2 (guard : Option FdPair) (tbl : List (Option Nat)) (rb wb : Nat) :
    (Except SysErr Int) × List (Option Nat) × Option FdPair :=
  match guard with
  | none => (Except.error SysErr.BadAddress, tbl, none)
  | some pair =>
    match fd_allocate tbl rb with
    | none => (Except.error SysErr.TooManyOpenFiles, tbl, some pair)
    | some ir =>
      let pair1 := { pair with read_end := toI32 ir.1 }
      match fd_allocate ir.2 wb with
      | none =>
        (Except.error SysErr.TooManyOpenFiles,
          fd_remove ir.2 (i32AsUsize pair1.read_end), some pair1)
      | some jw =>
        (Except.ok 0, jw.2, some { pair1 with write_end := toI32 jw.1 })

/-! ### Directory tree (filesystem-abstractions/src/tree.rs) -/

inductive FsError where
  | InvalidInput
  | NotFound
  | AlreadyExists
  | NotADirectory
  | NotAFile
deriving Repr, DecidableEq

inductive MountError where
  | InvalidInput
  | NotADirectory
  | FileExists
  | FileNotExists
  | AlreadyMounted
deriving Repr, DecidableEq

/-- An `IInode`, modelled by what the directory tree consults: an identity,
its metadata filename (metadata is modelled total: every inode
implementation in the repository returns Ok) and `lookup`. -/
inductive Ino where
  | mk (ident : Nat) (filename : String) (look : String → Except FsError Ino)

def Ino.filename : Ino → String
  | .mk _ f _ => f

def Ino.look : Ino → String → Except FsError Ino
  | .mk _ _ l => l

/-- `DirectoryTreeNode`: the inner record of tree.rs.  `meta` is
`DirectoryTreeNodeMetadata` (`some` = Inode variant, `none` = Empty);
`mounted` maps child names to mounted nodes; `opened` maps child names to
weak references, a dead weak reference (whose upgrade fails) being
`some none`; `parent` is the node's parent pointer snapshot. -/
inductive DNode where
  | mk (meta : Option Ino) (name : String)
      (mounted : String → Option DNode)
      (opened : String → Option (Option DNode))
      (shadowed : Option DNode)
      (parent : Option DNode)

def DNode.meta : DNode → Option Ino
  | .mk m _ _ _ _ _ => m

def DNode.name : DNode → String
  | .mk _ n _ _ _ _ => n

def DNode.mounted : DNode → String → Option DNode
  | .mk _ _ mo _ _ _ => mo

def DNode.opened : DNode → String → Option (Option DNode)
  | .mk _ _ _ op _ _ => op

def DNode.shadowed : DNode → Option DNode
  | .mk _ _ _ _ sh _ => sh

def DNode.parent : DNode → Option DNode
  | .mk _ _ _ _ _ pa => pa

def DNode.withMounted : DNode → (String → Option DNode) → DNode
  | .mk m n _ op sh pa, mo => .mk m n mo op sh pa

def DNode.withOpened : DNode → (String → Option (Option DNode)) → DNode
  | .mk m n mo _ sh pa, op => .mk m n mo op sh pa

def DNode.withShadowed : DNode → Option DNode → DNode
  | .mk m n mo op _ pa, sh => .mk m n mo op sh pa

/-- Pointwise map update. -/
def strUpdate {α : Type} (f : String → α) (key : String) (v : α) : String → α :=
  fun s => if s = key then v else f s

/-- `DirectoryTreeNode::from_inode` (fresh node: empty mounted/opened maps,
no shadowed node; with no explicit name the inode's metadata filename is
used). -/
def from_inode (parent : Option DNode) (inode : Ino) (nameArg : Option String) :
    DNode :=
  DNode.mk (some inode) (nameArg.getD inode.filename)
    (fun _ => none) (fun _ => none) none parent

/-- `DirectoryTreeNode::mount_as`: wrap the inode in a new child of `d`;
an existing mount at that name is removed first and becomes the new node's
`shadowed`; then the new node is inserted (`BTreeMap::insert` returning a
previous occupant would yield FileExists).  Returns (result, updated d). -/
def mount_as (d : DNode) (inode : Ino) (nameArg : Option String) :
    (Except MountError DNode) × DNode :=
  let name := nameArg.getD inode.filename
  let node := from_inode (some d) inode (some name)
  let removed := d.mounted name
  let d1 := d.withMounted (strUpdate d.mounted name none)
  let node' := match removed with
    | some old => node.withShadowed (some old)
    | none => node
  let prev := d1.mounted name
  let d2 := d1.withMounted (strUpdate d1.mounted name (some node'))
  match prev with
  | some _ => (Except.error MountError.FileExists, d2)
  | none => (Except.ok node', d2)

/-- `DirectoryTreeNode::umount_at`: remove the mounted child (FileNotExists
when absent), take its `shadowed` and, when present, re-insert it at the
name.  Returns (the unmounted node, updated d). -/
def umount_at (d : DNode) (name : String) : (Except MountError DNode) × DNode :=
  match d.mounted name with
  | none => (Except.error MountError.FileNotExists, d)
  | some um =>
    let d1 := d.withMounted (strUpdate d.mounted name none)
    let sh := um.shadowed
    let um' := um.withShadowed none
    let d2 := match sh with
      | some s => d1.withMounted (strUpdate d1.mounted name (some s))
      | none => d1
    (Except.ok um', d2)

/-- `DirectoryTreeNode::lookup` (as `IInode`): delegate to the backing
inode; Empty nodes fail with NotFound. -/
def node_lookup (d : DNode) (name : String) : Except FsError Ino :=
  match d.meta with
  | some ino => ino.look name
  | none => Except.error FsError.NotFound

/-- `DirectoryTreeNode::open_child`.  Returns (result, updated self). -/
def open_child (d : DNode) (name : String) : (Except FsError DNode) × DNode :=
  if name = "." ∨ name = "" then (Except.ok d, d)
  else if name = ".." then
    match d.parent with
    | some p => (Except.ok p, d)
    | none => (Except.ok d, d)
  else
    match d.mounted name with
    | some m => (Except.ok m, d)
    | none =>
      match (d.opened name).bind (fun w => w) with
      | some o => (Except.ok o, d)
      | none =>
        match node_lookup d name with
        | Except.error e => (Except.error e, d)
        | Except.ok ino =>
          let fresh := from_inode (some d) ino none
          (Except.ok fresh,
            d.withOpened (strUpdate d.opened name (some (some fresh))))

/-- The behaviour claim C7 ascribes to `open_child`, written from the
claim's words: self for "" and "."; parent (or self) for ".."; then the
mounted child, then a live opened child, then a fresh node wrapping the
backing inode's lookup result. -/
def open_child_claim (d : DNode) (name : String) : Except FsError DNode :=
  if name = "" ∨ name = "." then Except.ok d
  else if name = ".." then Except.ok (d.parent.getD d)
  else
    match d.mounted name with
    | some m => Except.ok m
    | none =>
      match (d.opened name).bind (fun w => w) with
      | some o => Except.ok o
      | none => (node_lookup d name).map (fun ino => from_inode (some d) ino none)

/-! ### Kernel message ring buffer (kernel/src/firmwares/console.rs) -/

def BUFFER_CAPACITY : Nat := 4096

structure RingBuffer where
  buffer : Nat → Nat
  head : Nat
  tail : Nat
  len : Nat

/-- The initial DMESG_BUFFER. -/
def dmesgInit : RingBuffer := ⟨fun _ => 0, 0, 0, 0⟩

/-- The eviction loop of `push_message`
(`while len + write_len > capacity: head = (head+1) % capacity; len -= 1`),
returning (head, len); faithful for `write_len ≤ 4096`, which the caller
establishes before entering the loop. -/
def evict_loop (write_len : Nat) : Nat → Nat → Nat × Nat
  | head, 0 => (head, 0)
  | head, Nat.succ l =>
    if Nat.succ l + write_len > 4096 then evict_loop write_len ((head + 1) % 4096) l
    else (head, Nat.succ l)

/-- The write loop of `push_message`: store each byte at `tail`, advancing
`tail` modulo the capacity. -/
def write_loop : (Nat → Nat) → Nat → List Nat → (Nat → Nat) × Nat
  | buf, tail, [] => (buf, tail)
  | buf, tail, b :: rest =>
    write_loop (fun j => if j = tail then b else buf j) ((tail + 1) % 4096) rest

/-- `push_message(msg_bytes)`: messages larger than the capacity keep only
their last 4096 bytes; otherwise the oldest bytes are evicted until the
message fits, and the message is appended at `tail`. -/
def push_message (r : RingBuffer) (msg : List Nat) : RingBuffer × Nat :=
  let write_len := msg.length
  if write_len > 4096 then
    ({ buffer := fun i =>
         if i < 4096 then msg.getD (write_len - 4096 + i) 0 else r.buffer i,
       head := 0, tail := 0, len := 4096 }, 4096)
  else
    let hl := evict_loop write_len r.head r.len
    let bt := write_loop r.buffer r.tail msg
    ({ buffer := bt.1, head := hl.1, tail := bt.2, len := hl.2 + write_len },
      write_len)

/-- `KernelMessageInode::readat`: bytes at `(head + i + offset) % capacity`,
at most `min(buffer.len(), len - offset)` of them. -/
def kmsg_readat (r : RingBuffer) (offset bufLen : Nat) : Nat × List Nat :=
  if offset ≥ r.len then (0, [])
  else
    (min bufLen (r.len - offset),
      (List.range (min bufLen (r.len - offset))).map
        (fun i => r.buffer ((r.head + i + offset) % 4096)))

/-- The bytes the ring buffer currently retains, oldest first. -/
def rbHolds (r : RingBuffer) : List Nat :=
  (List.range r.len).map (fun i => r.buffer ((r.head + i) % 4096))

/-- Well-formedness of the ring buffer state (holds of DMESG_BUFFER's
initial value and preserved by push_message). -/
def rbWf (r : RingBuffer) : Prop :=
  r.len ≤ 4096 ∧ r.head < 4096 ∧ r.tail = (r.head + r.len) % 4096

/-! ## Theorems -/

set_option maxRecDepth 4000

/-- C7: For every node n and segment name s, open_child(s) on n returns: n
itself when s is empty or "."; n's parent (or n itself when n has no
parent) when s is ".."; otherwise the child mounted under s when one
exists; otherwise the previously opened child under s whose weak reference
still upgrades; otherwise the result of lookup(s) on the backing inode
wrapped in a fresh node — so a mounted child is always preferred over an
opened child of the same name. -/
theorem open_child_matches_claim (d : DNode) (name : String) :
    (open_child d name).1 = open_child_claim d name := by
  unfold open_child open_child_claim
  by_cases h1 : name = "." ∨ name = ""
  · have h1' : name = "" ∨ name = "." := h1.symm
    rw [if_pos h1, if_pos h1']
  · have h1' : ¬(name = "" ∨ name = ".") := fun h => h1 h.symm
    rw [if_neg h1, if_neg h1']
    by_cases h3 : name = ".."
    · rw [if_pos h3, if_pos h3]
      cases d.parent <;> simp
    · rw [if_neg h3, if_neg h3]
      cases hm : d.mounted name
      · cases ho : (d.opened name).bind (fun w => w)
        · cases hl : node_lookup d name <;> simp [Except.map]
        · simp
      · simp

/-- C8: For every node n and name s that is neither mounted nor live-opened
under n (and is not one of the special segments "", ".", ".."), if the
backing inode's lookup(s) fails then open_child(s) returns that error and
n's opened map is exactly what it was before the call. -/
theorem open_child_error_preserves_opened (d : DNode) (s : String) (e : FsError)
    (h0 : s ≠ "") (h1 : s ≠ ".") (h2 : s ≠ "..")
    (hm : d.mounted s = none)
    (ho : (d.opened s).bind (fun w => w) = none)
    (hl : node_lookup d s = Except.error e) :
    (open_child d s).1 = Except.error e ∧
      (open_child d s).2.opened = d.opened := by
  unfold open_child
  rw [if_neg (by simp [h0, h1]), if_neg h2, hm, ho, hl]
  exact ⟨rfl, rfl⟩

/-- A concrete Empty directory node used by witnesses. -/
def cwNode : DNode :=
  DNode.mk none "r" (fun _ => none) (fun _ => none) none none

theorem open_child_error_preserves_opened_witness :
    node_lookup cwNode "x" = Except.error FsError.NotFound ∧
    ((open_child cwNode "x").1 = Except.error FsError.NotFound ∧
      (open_child cwNode "x").2.opened = cwNode.opened) :=
  ⟨rfl, open_child_error_preserves_opened cwNode "x" FsError.NotFound
    (by decide) (by decide) (by decide) rfl rfl rfl⟩

/-- C6: For every directory-tree node d, inode I and name x, mount_as(I,
Some(x)) followed by umount_at(x) returns Ok of the node wrapping I (its
shadowed pointer taken out), and the mounted map at x afterwards equals the
mounted map at x before the mount (the shadowed node is re-inserted, or x
is absent when nothing was shadowed); all other names are untouched. -/
theorem mount_umount_roundtrip (d : DNode) (inode : Ino) (x : String) :
    ∃ n : DNode,
      (mount_as d inode (some x)).1 = Except.ok n ∧
      n.meta = some inode ∧ n.name = x ∧ n.shadowed = d.mounted x ∧
      (umount_at (mount_as d inode (some x)).2 x).1 =
        Except.ok (n.withShadowed none) ∧
      (umount_at (mount_as d inode (some x)).2 x).2.mounted x = d.mounted x ∧
      ∀ y, y ≠ x →
        (umount_at (mount_as d inode (some x)).2 x).2.mounted y = d.mounted y := by
  cases hm : d.mounted x with
  | none =>
    refine ⟨from_inode (some d) inode (some x), ?_⟩
    cases d with
    | mk m n mo op sh pa =>
      simp only [DNode.mounted] at hm
      simp [mount_as, umount_at, from_inode, strUpdate, hm, DNode.mounted,
        DNode.withMounted, DNode.withShadowed, DNode.shadowed, DNode.meta,
        DNode.name]
      intro y hy
      simp [hy]
  | some old =>
    refine ⟨(from_inode (some d) inode (some x)).withShadowed (some old), ?_⟩
    cases d with
    | mk m n mo op sh pa =>
      simp only [DNode.mounted] at hm
      simp [mount_as, umount_at, from_inode, strUpdate, hm, DNode.mounted,
        DNode.withMounted, DNode.withShadowed, DNode.shadowed, DNode.meta,
        DNode.name]
      intro y hy
      simp [hy]

/-! ### Frame-map and mapping-loop lemmas -/

theorem framesLookup_insert (fs : List (Nat × Nat)) (k v key : Nat) :
    framesLookup (framesInsert fs k v).1 key =
      if k = key then some v else framesLookup fs key := by
  induction fs with
  | nil => simp [framesInsert, framesLookup]
  | cons a rest ih =>
    obtain ⟨ak, av⟩ := a
    by_cases hak : ak = k
    · subst hak
      simp [framesInsert, framesLookup]
      by_cases hk : ak = key <;> simp [hk, framesLookup]
    · simp only [framesInsert, if_neg hak]
      by_cases hk : ak = key
      · subst hk
        simp [framesLookup, if_neg (fun h : k = ak => hak h.symm)]
      · simp [framesLookup, hk, ih]

theorem framesRemove_found (fs : List (Nat × Nat)) (k : Nat) :
    (framesRemove fs k).2 = framesLookup fs k := by
  induction fs with
  | nil => simp [framesRemove, framesLookup]
  | cons a rest ih =>
    obtain ⟨ak, av⟩ := a
    by_cases hak : ak = k <;> simp [framesRemove, framesLookup, hak, ih]

theorem framesRemove_lookup_ne (fs : List (Nat × Nat)) (k key : Nat)
    (h : k ≠ key) :
    framesLookup (framesRemove fs k).1 key = framesLookup fs key := by
  induction fs with
  | nil => simp [framesRemove, framesLookup]
  | cons a rest ih =>
    obtain ⟨ak, av⟩ := a
    by_cases hak : ak = k
    · subst hak
      simp [framesRemove, framesLookup, if_neg (fun hh : ak = key => h hh)]
    · simp [framesRemove, framesLookup, hak, ih]

/-- Fields other than the frame map are untouched by the mapping loop. -/
theorem apply_from_fields (n : Nat) :
    ∀ (start : Nat) (area : MappingArea) (pt : PageTbl) (al : AllocState),
      (apply_mapping_from start n area pt al).1.range_start = area.range_start ∧
      (apply_mapping_from start n area pt al).1.range_end = area.range_end ∧
      (apply_mapping_from start n area pt al).1.area_type = area.area_type ∧
      (apply_mapping_from start n area pt al).1.permissions = area.permissions := by
  induction n with
  | zero => intro start area pt al; exact ⟨rfl, rfl, rfl, rfl⟩
  | succ m ih =>
    intro start area pt al
    simpa [apply_mapping_from, apply_mapping_single] using
      ih (start + 1) _ _ _

/-- The mapping loop makes every VPN of the walked range owned and leaves
all other bindings alone. -/
theorem apply_from_lookup (n : Nat) :
    ∀ (start : Nat) (area : MappingArea) (pt : PageTbl) (al : AllocState) (v : Nat),
      (start ≤ v → v < start + n →
        (framesLookup (apply_mapping_from start n area pt al).1.allocated_frames
          v).isSome = true) ∧
      (¬(start ≤ v ∧ v < start + n) →
        framesLookup (apply_mapping_from start n area pt al).1.allocated_frames v =
          framesLookup area.allocated_frames v) := by
  induction n with
  | zero =>
    intro start area pt al v
    exact ⟨fun h1 h2 => absurd h2 (by omega), fun _ => rfl⟩
  | succ m ih =>
    intro start area pt al v
    have hstep :
        apply_mapping_from start (m + 1) area pt al =
          apply_mapping_from (start + 1) m
            (apply_mapping_single area pt al start).1
            (apply_mapping_single area pt al start).2.1
            (apply_mapping_single area pt al start).2.2 := rfl
    have hins :
        framesLookup (apply_mapping_single area pt al start).1.allocated_frames v =
          if start = v then some (alloc_frame al).1
          else framesLookup area.allocated_frames v := by
      simp [apply_mapping_single, framesLookup_insert]
    obtain ⟨ih1, ih2⟩ := ih (start + 1)
      (apply_mapping_single area pt al start).1
      (apply_mapping_single area pt al start).2.1
      (apply_mapping_single area pt al start).2.2 v
    constructor
    · intro h1 h2
      rw [hstep]
      by_cases hv : v = start
      · subst hv
        rw [ih2 (by omega), hins, if_pos rfl]
        rfl
      · exact ih1 (by omega) (by omega)
    · intro h
      rw [hstep, ih2 (by omega), hins, if_neg (by omega)]

/-- The revoke loop drops exactly one frame per walked VPN back to the
allocator: the free list grows by the page count, keeps its old entries,
and receives every frame that was bound in the walked range. -/
theorem revoke_from_spec (n : Nat) :
    ∀ (start : Nat) (area : MappingArea) (pt : PageTbl) (al : AllocState),
      (∀ v, start ≤ v → v < start + n →
        (framesLookup area.allocated_frames v).isSome = true) →
      ((revoke_mapping_from start n area pt al).2.2.freed.length =
          al.freed.length + n) ∧
      ((revoke_mapping_from start n area pt al).2.2.next = al.next) ∧
      (∀ p, p ∈ al.freed →
        p ∈ (revoke_mapping_from start n area pt al).2.2.freed) ∧
      (∀ v p, start ≤ v → v < start + n →
        framesLookup area.allocated_frames v = some p →
        p ∈ (revoke_mapping_from start n area pt al).2.2.freed) ∧
      ((revoke_mapping_from start n area pt al).1.range_start =
        area.range_start) ∧
      ((revoke_mapping_from start n area pt al).1.range_end = area.range_end) := by
  induction n with
  | zero =>
    intro start area pt al _
    exact ⟨rfl, rfl, fun p hp => hp, fun v p h1 h2 => absurd h2 (by omega),
      rfl, rfl⟩
  | succ m ih =>
    intro start area pt al hall
    have hs0 : (framesLookup area.allocated_frames start).isSome = true :=
      hall start (by omega) (by omega)
    obtain ⟨p0, hp0⟩ : ∃ p0, framesLookup area.allocated_frames start = some p0 :=
      Option.isSome_iff_exists.mp hs0
    have hsingle :
        revoke_mapping_single area pt al start =
          ({ area with allocated_frames := (framesRemove area.allocated_frames start).1 },
            unmap_single pt start, drop_frame p0 al) := by
      simp [revoke_mapping_single, framesRemove_found, hp0]
    have hstep :
        revoke_mapping_from start (m + 1) area pt al =
          revoke_mapping_from (start + 1) m
            { area with allocated_frames := (framesRemove area.allocated_frames start).1 }
            (unmap_single pt start) (drop_frame p0 al) := by
      show revoke_mapping_from (start + 1) m (revoke_mapping_single area pt al start).1
          (revoke_mapping_single area pt al start).2.1
          (revoke_mapping_single area pt al start).2.2 =
        revoke_mapping_from (start + 1) m _ _ _
      rw [hsingle]
    have hall' : ∀ v, start + 1 ≤ v → v < start + 1 + m →
        (framesLookup (framesRemove area.allocated_frames start).1 v).isSome = true := by
      intro v h1 h2
      rw [framesRemove_lookup_ne _ _ _ (by omega)]
      exact hall v (by omega) (by omega)
    obtain ⟨c1, c2, c3, c4, c5, c6⟩ := ih (start + 1)
      { area with allocated_frames := (framesRemove area.allocated_frames start).1 }
      (unmap_single pt start) (drop_frame p0 al) hall'
    refine ⟨?_, ?_, ?_, ?_, ?_, ?_⟩
    · rw [hstep, c1]; simp [drop_frame]; omega
    · rw [hstep, c2]; rfl
    · intro p hp
      rw [hstep]
      exact c3 p (by simp [drop_frame]; exact Or.inr hp)
    · intro v p h1 h2 hv
      rw [hstep]
      by_cases hvs : v = start
      · subst hvs
        rw [hp0] at hv
        injection hv with hv
        subst hv
        exact c3 p0 (by simp [drop_frame])
      · refine c4 v p (by omega) (by omega) ?_
        rw [framesRemove_lookup_ne _ _ _ (by omega)]
        exact hv
    · rw [hstep]; exact c5
    · rw [hstep]; exact c6

theorem intAsUsize_sub (a b : Nat) (h : a ≤ b) (h2 : b - a < 2 ^ 64) :
    intAsUsize ((b : Int) - (a : Int)) = b - a := by
  unfold intAsUsize
  have hcast : (b : Int) - (a : Int) = ((b - a : Nat) : Int) := by
    push_cast [h]; ring
  rw [hcast, Int.emod_eq_of_lt (by positivity) (by exact_mod_cast h2)]
  simp

theorem get?_set_self {α : Type} :
    ∀ (l : List α) (i : Nat) (a : α), i < l.length →
      (l.set i a).get? i = some a := by
  intro l
  induction l with
  | nil => intro i a h; simp at h
  | cons x t ih =>
    intro i a h
    cases i with
    | zero => rfl
    | succ n => simpa using ih n a (by simpa using h)

/-- `increase_brk(k)` with `k` at or above the current end succeeds: the brk
area's range becomes [start, k), every new VPN in [end, k) gains an owned
frame, and all other bindings are untouched. -/
theorem increase_brk_ok (ms : MemorySpace) (al : AllocState) (k : Nat)
    (A : MappingArea)
    (hA : ms.mapping_areas.get? ms.brk_area_idx = some A)
    (hse : A.range_start ≤ A.range_end)
    (hk : A.range_end ≤ k) (hk64 : k - A.range_end < 2 ^ 64) :
    ∃ ms' al' A',
      increase_brk ms al k = Except.ok (ms', al') ∧
      ms'.brk_area_idx = ms.brk_area_idx ∧
      ms'.mapping_areas.get? ms.brk_area_idx = some A' ∧
      A'.range_start = A.range_start ∧ A'.range_end = k ∧
      (∀ v, A.range_end ≤ v → v < k →
        (framesLookup A'.allocated_frames v).isSome = true) ∧
      (∀ v, ¬(A.range_end ≤ v ∧ v < k) →
        framesLookup A'.allocated_frames v =
          framesLookup A.allocated_frames v) ∧
      (k = A.range_end → ms' = ms ∧ al' = al) := by
  have hlt : ms.brk_area_idx < ms.mapping_areas.length := by
    rcases List.get?_eq_some.1 hA with ⟨h, _⟩
    exact h
  unfold increase_brk
  rw [hA]
  dsimp only
  rw [if_neg (by omega : ¬ k < A.range_start)]
  by_cases h0 : (k : Int) - (A.range_end : Int) = 0
  · have hke : k = A.range_end := by omega
    rw [if_pos h0]
    refine ⟨ms, al, A, rfl, rfl, hA, rfl, hke.symm, ?_, fun v _ => rfl,
      fun _ => ⟨rfl, rfl⟩⟩
    intro v h1 h2
    omega
  · rw [if_neg h0]
    have hcnt : intAsUsize ((k : Int) - (A.range_end : Int)) = k - A.range_end :=
      intAsUsize_sub _ _ hk hk64
    obtain ⟨f1, f2, f3, f4⟩ := apply_from_fields
      (intAsUsize ((k : Int) - (A.range_end : Int))) A.range_end A
      ms.page_table al
    refine ⟨_, _, _, rfl, rfl, get?_set_self _ _ _ hlt, ?_, rfl, ?_, ?_, ?_⟩
    · simpa using f1
    · intro v h1 h2
      have := (apply_from_lookup (intAsUsize ((k : Int) - (A.range_end : Int)))
        A.range_end A ms.page_table al v).1
      simpa using this h1 (by omega)
    · intro v hv
      have := (apply_from_lookup (intAsUsize ((k : Int) - (A.range_end : Int)))
        A.range_end A ms.page_table al v).2
      simpa using this (by omega)
    · intro hke
      omega

/-- `shrink_brk(k')` with start ≤ k' ≤ end succeeds: the brk area's range
becomes [start, k') and exactly the end − k' frames bound in [k', end) are
returned to the allocator's free list. -/
theorem shrink_brk_ok (ms : MemorySpace) (al : AllocState) (k' : Nat)
    (A : MappingArea)
    (hA : ms.mapping_areas.get? ms.brk_area_idx = some A)
    (hstart : A.range_start ≤ k') (hend : k' ≤ A.range_end)
    (hk64 : A.range_end - k' < 2 ^ 64)
    (hall : ∀ v, k' ≤ v → v < A.range_end →
      (framesLookup A.allocated_frames v).isSome = true) :
    ∃ ms' al' A',
      shrink_brk ms al k' = Except.ok (ms', al') ∧
      ms'.brk_area_idx = ms.brk_area_idx ∧
      ms'.mapping_areas.get? ms.brk_area_idx = some A' ∧
      A'.range_start = A.range_start ∧ A'.range_end = k' ∧
      al'.freed.length = al.freed.length + (A.range_end - k') ∧
      (∀ p, p ∈ al.freed → p ∈ al'.freed) ∧
      (∀ v p, k' ≤ v → v < A.range_end →
        framesLookup A.allocated_frames v = some p → p ∈ al'.freed) := by
  have hlt : ms.brk_area_idx < ms.mapping_areas.length := by
    rcases List.get?_eq_some.1 hA with ⟨h, _⟩
    exact h
  unfold shrink_brk
  rw [hA]
  dsimp only
  rw [if_neg (by omega : ¬ A.range_end < k'), if_neg (by omega : ¬ k' < A.range_start)]
  by_cases h0 : (A.range_end : Int) - (k' : Int) = 0
  · have hke : k' = A.range_end := by omega
    rw [if_pos h0]
    refine ⟨ms, al, A, rfl, rfl, hA, rfl, hke.symm, by omega,
      fun p hp => hp, ?_⟩
    intro v p h1 h2
    omega
  · rw [if_neg h0]
    have hcnt : intAsUsize ((A.range_end : Int) - (k' : Int)) = A.range_end - k' :=
      intAsUsize_sub _ _ hend hk64
    obtain ⟨c1, c2, c3, c4, c5, c6⟩ := revoke_from_spec
      (intAsUsize ((A.range_end : Int) - (k' : Int))) k' A ms.page_table al
      (by
        intro v h1 h2
        exact hall v h1 (by omega))
    refine ⟨_, _, _, rfl, rfl, get?_set_self _ _ _ hlt, ?_, rfl, ?_, c3, ?_⟩
    · simpa using c5
    · rw [c1, hcnt]
    · intro v p h1 h2 hv
      exact c4 v p h1 (by omega) hv

/-- C4: From a brk area [start, end) with one owned frame per page,
increase_brk(k) (k ≥ end) followed by shrink_brk(k') (start ≤ k' ≤ k)
succeeds, leaves the brk area's VPN range equal to [start, k'), and frees
exactly k − k' frames: every frame bound beyond k' after the increase is
dropped back onto the allocator's free list. -/
theorem brk_increase_shrink_spec (ms : MemorySpace) (al : AllocState)
    (A : MappingArea) (k k' : Nat)
    (hA : ms.mapping_areas.get? ms.brk_area_idx = some A)
    (hse : A.range_start ≤ A.range_end)
    (hdom : ∀ v, (framesLookup A.allocated_frames v).isSome = true ↔
      (A.range_start ≤ v ∧ v < A.range_end))
    (hek : A.range_end ≤ k) (hsk : A.range_start ≤ k') (hkk : k' ≤ k)
    (hk64 : k < 2 ^ 64) :
    ∃ ms1 al1 A1 ms2 al2 A2,
      increase_brk ms al k = Except.ok (ms1, al1) ∧
      shrink_brk ms1 al1 k' = Except.ok (ms2, al2) ∧
      ms1.mapping_areas.get? ms1.brk_area_idx = some A1 ∧
      A1.range_start = A.range_start ∧ A1.range_end = k ∧
      ms2.mapping_areas.get? ms2.brk_area_idx = some A2 ∧
      A2.range_start = A.range_start ∧ A2.range_end = k' ∧
      al2.freed.length = al1.freed.length + (k - k') ∧
      (∀ v p, k' ≤ v → v < k →
        framesLookup A1.allocated_frames v = some p → p ∈ al2.freed) := by
  obtain ⟨ms1, al1, A1, hok1, hidx1, hget1, hrs1, hre1, hin1, hout1, _⟩ :=
    increase_brk_ok ms al k A hA hse hek (by omega)
  have hget1' : ms1.mapping_areas.get? ms1.brk_area_idx = some A1 := by
    rw [hidx1]; exact hget1
  have hall : ∀ v, k' ≤ v → v < A1.range_end →
      (framesLookup A1.allocated_frames v).isSome = true := by
    intro v h1 h2
    rw [hre1] at h2
    by_cases hv : A.range_end ≤ v
    · exact hin1 v hv h2
    · rw [hout1 v (by omega)]
      exact (hdom v).2 ⟨by omega, by omega⟩
  obtain ⟨ms2, al2, A2, hok2, hidx2, hget2, hrs2, hre2, hlen, hmono, hmem⟩ :=
    shrink_brk_ok ms1 al1 k' A1 hget1' (by rw [hrs1]; omega)
      (by rw [hre1]; omega) (by rw [hre1]; omega) hall
  refine ⟨ms1, al1, A1, ms2, al2, A2, hok1, hok2, hget1', hrs1, hre1,
    ?_, by rw [hrs2, hrs1], hre2, ?_, ?_⟩
  · rw [hidx2]; exact hget2
  · rw [hlen, hre1]
  · intro v p h1 h2 hv
    exact hmem v p h1 (by rw [hre1]; omega) hv

/-- C4 witness: an empty brk area at VPN 10 grown to 12 and shrunk to 11. -/
theorem brk_increase_shrink_spec_witness :
    (({ MemorySpace.empty with
          mapping_areas := [⟨10, 10, AreaType.UserBrk, MapTy.Framed, [], 23⟩],
          brk_area_idx := 0 } : MemorySpace).mapping_areas.get? 0 =
        some ⟨10, 10, AreaType.UserBrk, MapTy.Framed, [], 23⟩ ∧
      (∀ v, (framesLookup ([] : List (Nat × Nat)) v).isSome = true ↔
        (10 ≤ v ∧ v < 10))) ∧
    (∃ ms1 al1 A1 ms2 al2 A2,
      increase_brk
          { MemorySpace.empty with
            mapping_areas := [⟨10, 10, AreaType.UserBrk, MapTy.Framed, [], 23⟩],
            brk_area_idx := 0 } ⟨0, []⟩ 12 = Except.ok (ms1, al1) ∧
      shrink_brk ms1 al1 11 = Except.ok (ms2, al2) ∧
      ms1.mapping_areas.get? ms1.brk_area_idx = some A1 ∧
      A1.range_start = 10 ∧ A1.range_end = 12 ∧
      ms2.mapping_areas.get? ms2.brk_area_idx = some A2 ∧
      A2.range_start = 10 ∧ A2.range_end = 11 ∧
      al2.freed.length = al1.freed.length + (12 - 11) ∧
      (∀ v p, 11 ≤ v → v < 12 →
        framesLookup A1.allocated_frames v = some p → p ∈ al2.freed)) :=
  ⟨⟨rfl, by intro v; simp [framesLookup]⟩,
    brk_increase_shrink_spec _ ⟨0, []⟩
      ⟨10, 10, AreaType.UserBrk, MapTy.Framed, [], 23⟩ 12 11 rfl
      (by decide) (by intro v; simp [framesLookup])
      (by decide) (by decide) (by decide) (by decide)⟩

/-- C5: the brk syscall handler returns the current byte-granular position
for 0 or the current value and changes nothing; rejects any smaller
non-zero address without touching the state; and for a larger address
records it, extending the brk area at page granularity — the area's end
becomes max(end, ceil(addr / 4096)), and when the address stays below the
area's current page end the memory space and allocator are untouched. -/
theorem sys_brk_spec (st : TaskState) (A : MappingArea)
    (hA : st.ms.mapping_areas.get? st.ms.brk_area_idx = some A)
    (hse : A.range_start ≤ A.range_end) :
    (sys_brk st 0 = (Except.ok (st.brk_pos : Int), st)) ∧
    (sys_brk st st.brk_pos = (Except.ok (st.brk_pos : Int), st)) ∧
    (∀ a, 0 < a → a < st.brk_pos → sys_brk st a = (Except.error (-1), st)) ∧
    (∀ a, st.brk_pos < a → a < 2 ^ 63 →
      (sys_brk st a).1 = Except.ok (a : Int) ∧
      (sys_brk st a).2.brk_pos = a ∧
      (∃ A', (sys_brk st a).2.ms.mapping_areas.get?
          (sys_brk st a).2.ms.brk_area_idx = some A' ∧
        A'.range_start = A.range_start ∧
        A'.range_end = max A.range_end ((a + PAGE_SIZE - 1) / PAGE_SIZE)) ∧
      (a < A.range_end * PAGE_SIZE →
        (sys_brk st a).2.ms = st.ms ∧ (sys_brk st a).2.al = st.al)) := by
  refine ⟨by simp [sys_brk], by simp [sys_brk], ?_, ?_⟩
  · intro a h1 h2
    unfold sys_brk
    rw [if_neg (by omega : ¬(a = 0 ∨ a = st.brk_pos)), if_pos h2]
  · intro a h1 h2
    unfold sys_brk
    rw [if_neg (by omega : ¬(a = 0 ∨ a = st.brk_pos)),
      if_neg (by omega : ¬ a < st.brk_pos), hA]
    dsimp only
    by_cases hlt : a < A.range_end * PAGE_SIZE
    · rw [if_pos hlt]
      refine ⟨rfl, rfl, ⟨A, hA, rfl, ?_⟩, fun _ => ⟨rfl, rfl⟩⟩
      simp only [PAGE_SIZE] at hlt ⊢
      omega
    · rw [if_neg hlt]
      have hk : A.range_end ≤ (a + PAGE_SIZE - 1) / PAGE_SIZE := by
        simp only [PAGE_SIZE] at hlt ⊢
        omega
      have h64 : (a + PAGE_SIZE - 1) / PAGE_SIZE - A.range_end < 2 ^ 64 := by
        simp only [PAGE_SIZE] at h2 ⊢
        omega
      obtain ⟨ms', al', A', hok, hidx, hget, hrs, hre, _, _, _⟩ :=
        increase_brk_ok st.ms st.al ((a + PAGE_SIZE - 1) / PAGE_SIZE) A hA hse hk h64
      rw [hok]
      refine ⟨rfl, rfl, ⟨A', ?_, hrs, ?_⟩, fun hcon => absurd hcon (by omega)⟩
      · show ms'.mapping_areas.get? ms'.brk_area_idx = some A'
        rw [hidx]
        exact hget
      · rw [hre]
        omega

/-- C5 witness: a task whose brk area is empty at VPN 10 and whose brk
position is at the page boundary 10 * 4096. -/
theorem sys_brk_spec_witness :
    (({ MemorySpace.empty with
        mapping_areas := [⟨10, 10, AreaType.UserBrk, MapTy.Framed, [], 23⟩],
        brk_area_idx := 0 } : MemorySpace).mapping_areas.get? 0 =
      some ⟨10, 10, AreaType.UserBrk, MapTy.Framed, [], 23⟩) ∧
    (sys_brk ⟨40960,
        { MemorySpace.empty with
          mapping_areas := [⟨10, 10, AreaType.UserBrk, MapTy.Framed, [], 23⟩],
          brk_area_idx := 0 }, ⟨0, []⟩⟩ 0 =
      (Except.ok ((40960 : Nat) : Int), ⟨40960,
        { MemorySpace.empty with
          mapping_areas := [⟨10, 10, AreaType.UserBrk, MapTy.Framed, [], 23⟩],
          brk_area_idx := 0 }, ⟨0, []⟩⟩)) :=
  ⟨rfl,
    (sys_brk_spec ⟨40960,
      { MemorySpace.empty with
        mapping_areas := [⟨10, 10, AreaType.UserBrk, MapTy.Framed, [], 23⟩],
        brk_area_idx := 0 }, ⟨0, []⟩⟩
      ⟨10, 10, AreaType.UserBrk, MapTy.Framed, [], 23⟩ rfl (by decide)).1⟩

/-- A builder state right after from_elf for the single-segment scenario
(stack top 0x114000, the 14 auxv entries recorded by from_elf). -/
def c2Builder : MemorySpaceBuilder :=
  { memory_space := MemorySpace.empty
    entry_pc := 0x10000
    stack_top := 0x114000
    argc := 0
    argv_base := 0x114000
    envp_base := 0x114000
    auxv := [(AT_PHDR, 0x10040), (AT_PHENT, 56), (AT_PHNUM, 1),
      (AT_PAGESZ, 4096), (AT_BASE, 0), (AT_FLAGS, 0), (AT_ENTRY, 0x10000),
      (AT_UID, 0), (AT_EUID, 0), (AT_GID, 0), (AT_EGID, 0), (AT_HWCAP, 0),
      (AT_CLKTCK, 125000000), (AT_SECURE, 0)] }

/-- C2 (code bug): init_stack's "Setup 16 random bytes for aux vector" step
pushes a single u64 (0xdeadbeef), i.e. exactly 8 bytes: the gap between
the platform string and aux_random_base is 8, and the recorded aux-random
write event is an 8-byte write at aux_random_base — not the 16 bytes the
claim (and the source comment) state. -/
theorem init_stack_aux_random_eight_bytes :
    (init_stack c2Builder [] []).platform_start -
        (init_stack c2Builder [] []).aux_random_base = 8 ∧
    (init_stack c2Builder [] []).aux_random_write =
      ((init_stack c2Builder [] []).aux_random_base, leBytes 0xdeadbeef 8) ∧
    (leBytes 0xdeadbeef 8).length = 8 := by
  refine ⟨by decide, by decide, by decide⟩

def memZero : Mem := fun _ => 0

/-- Allocation stores the descriptor at the first free slot. -/
theorem fd_allocate_spec :
    ∀ (slots : List (Option Nat)) (v i : Nat) (slots' : List (Option Nat)),
      fd_allocate slots v = some (i, slots') →
      slots.get? i = some none ∧ slots' = slots.set i (some v) := by
  intro slots
  induction slots with
  | nil => intro v i slots' h; simp [fd_allocate] at h
  | cons s rest ih =>
    intro v i slots' h
    cases s with
    | none =>
      simp [fd_allocate] at h
      obtain ⟨hi, hs⟩ := h
      subst hi; subst hs
      exact ⟨rfl, rfl⟩
    | some x =>
      simp only [fd_allocate] at h
      cases hr : fd_allocate rest v with
      | none => rw [hr] at h; simp at h
      | some r =>
        rw [hr] at h
        simp at h
        obtain ⟨hi, hs⟩ := h
        obtain ⟨hg, hset⟩ := ih v r.1 r.2 (by rw [hr])
        subst hi; subst hs
        exact ⟨hg, by simp [List.set, hset]⟩

theorem set_get?_eq {α : Type} :
    ∀ (l : List α) (i : Nat) (v : α), l.get? i = some v → l.set i v = l := by
  intro l
  induction l with
  | nil => intro i v h; simp at h
  | cons a t ih =>
    intro i v h
    cases i with
    | zero => simp at h; simp [h]
    | succ n => simp at h ⊢; exact ih n v (by simpa using h)

/-- C9: In sys_pipe2, once the read-end descriptor has been allocated, a
failing write-end allocation removes the read-end descriptor again and the
handler returns TooManyOpenFiles: the fd table ends exactly as it started,
so it contains neither pipe descriptor. -/
theorem sys_pipe2_rollback (tbl : List (Option Nat)) (rb wb i : Nat)
    (tbl1 : List (Option Nat)) (pair : FdPair)
    (hlen : tbl.length < 2 ^ 31)
    (h1 : fd_allocate tbl rb = some (i, tbl1))
    (h2 : fd_allocate tbl1 wb = none) :
    sys_pipe2 (some pair) tbl rb wb =
      (Except.error SysErr.TooManyOpenFiles, tbl,
        some { pair with read_end := toI32 i }) ∧
    tbl.get? i = some none := by
  obtain ⟨hget, hset⟩ := fd_allocate_spec tbl rb i tbl1 h1
  have hi : i < tbl.length := by
    rcases Nat.lt_or_ge i tbl.length with h | h
    · exact h
    · rw [List.get?_eq_none.2 h] at hget; exact absurd hget (by simp)
  have hi31 : i < 2 ^ 31 := Nat.lt_trans hi hlen
  have hto : toI32 i = (i : Int) := by
    unfold toI32
    rw [Nat.mod_eq_of_lt (by omega)]
    rw [if_pos hi31]
  have husize : i32AsUsize (toI32 i) = i := by
    rw [hto]
    unfold i32AsUsize
    rw [Int.emod_eq_of_lt (by positivity) (by exact_mod_cast by omega)]
    simp
  have hrem : fd_remove tbl1 (i32AsUsize (toI32 i)) = tbl := by
    rw [husize, hset]
    unfold fd_remove
    rw [List.set_set]
    exact set_get?_eq tbl i none hget
  refine ⟨?_, hget⟩
  simp only [sys_pipe2, h1, h2, hrem]

/-- C9 witness: a one-slot table; the read end takes the slot, the write
end finds the table full, and the rollback leaves the table as it was. -/
theorem sys_pipe2_rollback_witness :
    ([(none : Option Nat)].length < 2 ^ 31 ∧
      fd_allocate [none] 7 = some (0, [some 7]) ∧
      fd_allocate [some 7] 9 = none) ∧
    (sys_pipe2 (some ⟨-1, -1⟩) [none] 7 9 =
        (Except.error SysErr.TooManyOpenFiles, [none],
          some { FdPair.mk (-1) (-1) with read_end := toI32 0 }) ∧
      [(none : Option Nat)].get? 0 = some none) :=
  ⟨⟨by decide, rfl, rfl⟩,
    sys_pipe2_rollback [none] 7 9 0 [some 7] ⟨-1, -1⟩ (by decide) rfl rfl⟩

/-- C3 (code bug): on a fresh RamFileInode, writeat(o, b) with o + |b| a
page multiple (here o = 4095, b = [55]) hits the out-of-range frame slice
`frames[0..2]` (the vector holds a single frame) and panics, instead of
returning Ok(|b|) as the claim states. -/
theorem ram_writeat_page_aligned_panics :
    ram_writeat (ram_file_new "a") ⟨0, []⟩ memZero 4095 [55] =
      Except.error RustPanic.sliceIndexOutOfRange := rfl

/-! ### from_elf lemmas (C1) -/

theorem translate_cons (vpn ppn flags : Nat) (pt : PageTbl) (v : Nat) :
    translate ((vpn, ppn, flags) :: pt) v =
      if vpn = v then some (ppn, flags) else translate pt v := by
  by_cases h : vpn = v
  · simp [translate, List.find?, h]
  · have hb : (vpn == v) = false := by simpa using h
    simp [translate, List.find?, hb, h]

theorem framesInsert_of_none (fs : List (Nat × Nat)) (k v : Nat)
    (h : framesLookup fs k = none) :
    framesInsert fs k v = (fs ++ [(k, v)], none) := by
  induction fs with
  | nil => rfl
  | cons a rest ih =>
    obtain ⟨ak, av⟩ := a
    simp only [framesLookup] at h
    by_cases hak : ak = k
    · rw [if_pos hak] at h
      exact absurd h (by simp)
    · rw [if_neg hak] at h
      simp [framesInsert, hak, ih h]

/-- One mapping step under a fresh bump allocator and a fresh key. -/
theorem apply_single_bump (area : MappingArea) (pt : PageTbl)
    (mppn start : Nat)
    (h : framesLookup area.allocated_frames start = none) :
    apply_mapping_single area pt ⟨mppn, []⟩ start =
      ({ area with
          allocated_frames := area.allocated_frames ++ [(start, mppn)] },
        (start, mppn, area.permissions) :: pt, ⟨mppn + 1, []⟩) := by
  simp [apply_mapping_single, alloc_frame, map_single,
    framesInsert_of_none _ _ _ h]

theorem framesLookup_append_single (fs : List (Nat × Nat)) (k v w : Nat) :
    framesLookup (fs ++ [(k, v)]) w =
      (match framesLookup fs w with
      | some x => some x
      | none => if k = w then some v else none) := by
  induction fs with
  | nil => simp [framesLookup]
  | cons a rest ih =>
    obtain ⟨ak, av⟩ := a
    by_cases hak : ak = w <;> simp [framesLookup, hak, ih]

theorem fresh_after_append (area : MappingArea) (start mppn : Nat)
    (hfresh : ∀ w, start ≤ w → framesLookup area.allocated_frames w = none) :
    ∀ w, start + 1 ≤ w →
      framesLookup (area.allocated_frames ++ [(start, mppn)]) w = none := by
  intro w hw
  rw [framesLookup_append_single, hfresh w (by omega)]
  simp only
  rw [if_neg (by omega)]

/-- With a fresh bump allocator (empty free list) and fresh keys, the
mapping loop installs consecutive physical frames, and translate sees
exactly them on the walked range. -/
theorem apply_from_bump_translate (n : Nat) :
    ∀ (start mppn : Nat) (area : MappingArea) (pt : PageTbl) (v : Nat),
      (∀ w, start ≤ w → framesLookup area.allocated_frames w = none) →
      translate (apply_mapping_from start n area pt ⟨mppn, []⟩).2.1 v =
        (if start ≤ v ∧ v < start + n then
          some (mppn + (v - start), area.permissions)
        else translate pt v) := by
  induction n with
  | zero =>
    intro start mppn area pt v _
    rw [if_neg (by omega)]
    rfl
  | succ m ih =>
    intro start mppn area pt v hfresh
    have hstep : apply_mapping_from start (m + 1) area pt ⟨mppn, []⟩ =
        apply_mapping_from (start + 1) m
          { area with
            allocated_frames := area.allocated_frames ++ [(start, mppn)] }
          ((start, mppn, area.permissions) :: pt) ⟨mppn + 1, []⟩ := by
      show apply_mapping_from (start + 1) m
          (apply_mapping_single area pt ⟨mppn, []⟩ start).1
          (apply_mapping_single area pt ⟨mppn, []⟩ start).2.1
          (apply_mapping_single area pt ⟨mppn, []⟩ start).2.2 = _
      rw [apply_single_bump area pt mppn start (hfresh start (le_refl _))]
    rw [hstep, ih (start + 1) (mppn + 1) _ _ v
      (fresh_after_append area start mppn hfresh)]
    by_cases h1 : start + 1 ≤ v ∧ v < start + 1 + m
    · rw [if_pos h1, if_pos (by omega)]
      have : mppn + 1 + (v - (start + 1)) = mppn + (v - start) := by omega
      rw [this]
    · rw [if_neg h1, translate_cons]
      by_cases h2 : start = v
      · rw [if_pos h2, if_pos (by omega)]
        subst h2
        simp
      · rw [if_neg h2, if_neg (by omega)]

/-- The (vpn, ppn) pairs the mapping loop appends: `count` consecutive
pairs starting at (start, mppn). -/
def rampFrames : Nat → Nat → Nat → List (Nat × Nat)
  | _, _, 0 => []
  | start, mppn, Nat.succ n => (start, mppn) :: rampFrames (start + 1) (mppn + 1) n

theorem rampFrames_length (n : Nat) :
    ∀ start mppn, (rampFrames start mppn n).length = n := by
  induction n with
  | zero => intro start mppn; rfl
  | succ m ih => intro start mppn; simp [rampFrames, ih]

/-- Area record and allocator state of the mapping loop under a fresh bump
allocator: only the frame map changes, gaining `count` consecutive frames. -/
theorem apply_from_bump_area (n : Nat) :
    ∀ (start mppn : Nat) (area : MappingArea) (pt : PageTbl),
      (∀ w, start ≤ w → framesLookup area.allocated_frames w = none) →
      (apply_mapping_from start n area pt ⟨mppn, []⟩).1 =
        { area with allocated_frames :=
            area.allocated_frames ++ rampFrames start mppn n } ∧
      (apply_mapping_from start n area pt ⟨mppn, []⟩).2.2 = ⟨mppn + n, []⟩ := by
  induction n with
  | zero =>
    intro start mppn area pt _
    constructor
    · show area = _
      cases area
      simp [rampFrames]
    · rfl
  | succ m ih =>
    intro start mppn area pt hfresh
    have hstep : apply_mapping_from start (m + 1) area pt ⟨mppn, []⟩ =
        apply_mapping_from (start + 1) m
          { area with
            allocated_frames := area.allocated_frames ++ [(start, mppn)] }
          ((start, mppn, area.permissions) :: pt) ⟨mppn + 1, []⟩ := by
      show apply_mapping_from (start + 1) m
          (apply_mapping_single area pt ⟨mppn, []⟩ start).1
          (apply_mapping_single area pt ⟨mppn, []⟩ start).2.1
          (apply_mapping_single area pt ⟨mppn, []⟩ start).2.2 = _
      rw [apply_single_bump area pt mppn start (hfresh start (le_refl _))]
    obtain ⟨ih1, ih2⟩ := ih (start + 1) (mppn + 1)
      { area with
        allocated_frames := area.allocated_frames ++ [(start, mppn)] }
      ((start, mppn, area.permissions) :: pt)
      (fresh_after_append area start mppn hfresh)
    constructor
    · rw [hstep, ih1]
      cases area
      simp [rampFrames]
    · rw [hstep, ih2]
      congr 1
      omega

/-- `map_area` on an empty-framed area under a fresh bump allocator. -/
theorem map_area_bump (ms : MemorySpace) (p : Nat) (area : MappingArea)
    (h : area.allocated_frames = []) :
    map_area ms ⟨p, []⟩ area =
      ({ ms with
          page_table := (apply_mapping_from area.range_start
            (area.range_end - area.range_start) area ms.page_table ⟨p, []⟩).2.1,
          mapping_areas := ms.mapping_areas ++
            [{ area with
                allocated_frames :=
                  rampFrames area.range_start p
                    (area.range_end - area.range_start) }] },
        ⟨p + (area.range_end - area.range_start), []⟩) := by
  have hfresh : ∀ w, area.range_start ≤ w →
      framesLookup area.allocated_frames w = none := by
    intro w _
    rw [h]
    rfl
  obtain ⟨h1, h2⟩ := apply_from_bump_area (area.range_end - area.range_start)
    area.range_start p area ms.page_table hfresh
  unfold map_area apply_mapping
  dsimp only
  rw [h1, h2, h]
  simp

theorem place_guard_base_bump (ms : MemorySpace) (p vpn : Nat) :
    place_guard_base (ms, ⟨p, []⟩) vpn =
      ({ ms with
          page_table := (apply_mapping_from vpn 1
            ⟨vpn, vpn + 1, AreaType.UserStackGuardBase, MapTy.Framed, [], 0⟩
            ms.page_table ⟨p, []⟩).2.1,
          mapping_areas := ms.mapping_areas ++
            [⟨vpn, vpn + 1, AreaType.UserStackGuardBase, MapTy.Framed,
              rampFrames vpn p 1, 0⟩],
          stack_guard_base :=
            (vpn * PAGE_SIZE, vpn * PAGE_SIZE + USER_STACK_SIZE) },
        ⟨p + 1, []⟩) := by
  unfold place_guard_base
  rw [map_area_bump _ _ _ rfl]
  have hone : vpn + 1 - vpn = 1 := by omega
  simp only [hone]

theorem place_stack_bump (ms : MemorySpace) (p vpn : Nat) :
    place_stack (ms, ⟨p, []⟩) vpn =
      ({ ms with
          page_table := (apply_mapping_from vpn 256
            ⟨vpn, vpn + USER_STACK_SIZE / PAGE_SIZE, AreaType.UserStack,
              MapTy.Framed, [],
              FLAG_VALID ||| FLAG_WRITABLE ||| FLAG_READABLE ||| FLAG_USER⟩
            ms.page_table ⟨p, []⟩).2.1,
          mapping_areas := ms.mapping_areas ++
            [⟨vpn, vpn + USER_STACK_SIZE / PAGE_SIZE, AreaType.UserStack,
              MapTy.Framed, rampFrames vpn p 256,
              FLAG_VALID ||| FLAG_WRITABLE ||| FLAG_READABLE ||| FLAG_USER⟩],
          stack_range := (vpn * PAGE_SIZE, vpn * PAGE_SIZE + USER_STACK_SIZE) },
        ⟨p + 256, []⟩) := by
  unfold place_stack
  rw [map_area_bump _ _ _ rfl]
  have hcnt : vpn + USER_STACK_SIZE / PAGE_SIZE - vpn = 256 := by
    simp [USER_STACK_SIZE, PAGE_SIZE]
  simp only [hcnt]

theorem place_guard_top_bump (ms : MemorySpace) (p vpn : Nat) :
    place_guard_top (ms, ⟨p, []⟩) vpn =
      ({ ms with
          page_table := (apply_mapping_from vpn 1
            ⟨vpn, vpn + 1, AreaType.UserStackGuardTop, MapTy.Framed, [], 0⟩
            ms.page_table ⟨p, []⟩).2.1,
          mapping_areas := ms.mapping_areas ++
            [⟨vpn, vpn + 1, AreaType.UserStackGuardTop, MapTy.Framed,
              rampFrames vpn p 1, 0⟩],
          stack_gurad_top := (vpn * PAGE_SIZE, vpn * PAGE_SIZE + PAGE_SIZE) },
        ⟨p + 1, []⟩) := by
  unfold place_guard_top
  rw [map_area_bump _ _ _ rfl]
  have hone : vpn + 1 - vpn = 1 := by omega
  simp only [hone]

theorem place_brk_bump (ms : MemorySpace) (p vpn : Nat) :
    place_brk (ms, ⟨p, []⟩) vpn =
      ({ ms with
          mapping_areas := ms.mapping_areas ++
            [⟨vpn, vpn, AreaType.UserBrk, MapTy.Framed, [],
              FLAG_VALID ||| FLAG_WRITABLE ||| FLAG_READABLE ||| FLAG_USER⟩],
          brk_area_idx := List.findIdx
            (fun a => decide (a.area_type = AreaType.UserBrk))
            (ms.mapping_areas ++
              [⟨vpn, vpn, AreaType.UserBrk, MapTy.Framed, [],
                FLAG_VALID ||| FLAG_WRITABLE ||| FLAG_READABLE ||| FLAG_USER⟩]),
          brk_start := vpn * PAGE_SIZE },
        ⟨p, []⟩) := by
  unfold place_brk
  rw [map_area_bump _ _ _ rfl]
  have hz : vpn - vpn = 0 := by omega
  simp only [hz, rampFrames, apply_mapping_from, Nat.add_zero]

/-- The cross-space copy writes the bytes at consecutive physical
addresses and leaves the rest of memory untouched. -/
theorem copy_spec (d : List Nat) :
    ∀ (va base : Nat) (pt : PageTbl) (mem : Mem),
      (∀ i, i < d.length → physOf pt (va + i) = some (base + i)) →
      (∀ x, (activated_copy_data_to_other pt mem va d).1 x =
        if base ≤ x ∧ x < base + d.length then d.getD (x - base) 0 else mem x) ∧
      (activated_copy_data_to_other pt mem va d).2 = d.length := by
  induction d with
  | nil =>
    intro va base pt mem _
    refine ⟨fun x => ?_, rfl⟩
    rw [if_neg (by simp only [List.length_nil]; omega)]
    rfl
  | cons b rest ih =>
    intro va base pt mem hphys
    have h0 : physOf pt va = some base := by
      have := hphys 0 (by simp)
      simpa using this
    have hrec : ∀ i, i < rest.length → physOf pt (va + 1 + i) = some (base + 1 + i) := by
      intro i hi
      have := hphys (i + 1) (by simp only [List.length_cons]; omega)
      rw [show va + (i + 1) = va + 1 + i by omega,
        show base + (i + 1) = base + 1 + i by omega] at this
      exact this
    have hunfold : activated_copy_data_to_other pt mem va (b :: rest) =
        ((activated_copy_data_to_other pt (writeByte mem base b) (va + 1) rest).1,
          (activated_copy_data_to_other pt (writeByte mem base b) (va + 1) rest).2 + 1) := by
      show (match physOf pt va with
        | none => (mem, 0)
        | some p =>
          let r := activated_copy_data_to_other pt (writeByte mem p b) (va + 1) rest
          (r.1, r.2 + 1)) = _
      rw [h0]
    obtain ⟨ih1, ih2⟩ := ih (va + 1) (base + 1) pt (writeByte mem base b) hrec
    rw [hunfold]
    constructor
    · intro x
      rw [ih1 x]
      by_cases h1 : base + 1 ≤ x ∧ x < base + 1 + rest.length
      · rw [if_pos h1, if_pos (by simp only [List.length_cons]; omega)]
        have hx : x - base = (x - (base + 1)) + 1 := by omega
        rw [hx]
        simp [List.getD_cons_succ]
      · rw [if_neg h1]
        by_cases h2 : x = base
        · subst h2
          rw [if_pos (by simp only [List.length_cons]; omega)]
          simp [writeByte]
        · rw [if_neg (by simp only [List.length_cons]; omega), writeByte,
            if_neg h2]
    · simp [ih2]

/-! ### Ring buffer lemmas (C10) -/

theorem rbHolds_length (r : RingBuffer) : (rbHolds r).length = r.len := by
  simp [rbHolds]

theorem evict_loop_spec (wl : Nat) (hwl : wl ≤ 4096) :
    ∀ (l h : Nat), h < 4096 →
      evict_loop wl h l =
        ((h + (l + wl - 4096)) % 4096, l - (l + wl - 4096)) := by
  intro l
  induction l with
  | zero =>
    intro h hh
    have h0 : wl - 4096 = 0 := by omega
    simp [evict_loop, h0, Nat.mod_eq_of_lt hh]
  | succ m ih =>
    intro h hh
    by_cases hc : m + 1 + wl > 4096
    · simp only [evict_loop]
      rw [if_pos hc, ih ((h + 1) % 4096) (Nat.mod_lt _ (by norm_num))]
      simp only [Prod.mk.injEq]
      constructor
      · rw [Nat.mod_add_mod]
        have e2 : h + 1 + (m + wl - 4096) = h + (m + 1 + wl - 4096) := by omega
        rw [e2]
      · omega
    · simp only [evict_loop]
      rw [if_neg hc]
      have h0 : m + 1 + wl - 4096 = 0 := by omega
      simp [h0, Nat.mod_eq_of_lt hh]

theorem rbHolds_step (buf : Nat → Nat) (h t m : Nat) :
    rbHolds ⟨buf, (h + 1) % 4096, t, m⟩ =
      (rbHolds ⟨buf, h, t, m + 1⟩).drop 1 := by
  unfold rbHolds
  simp only
  rw [List.range_succ_eq_map]
  simp only [List.map_cons, List.map_map, List.drop_succ_cons, List.drop_zero]
  apply List.map_congr_left
  intro i _
  simp only [Function.comp]
  rw [Nat.mod_add_mod]
  congr 1
  omega

theorem rbHolds_evict (wl : Nat) (hwl : wl ≤ 4096) :
    ∀ (l h : Nat) (buf : Nat → Nat) (t : Nat), h < 4096 →
      rbHolds ⟨buf, (evict_loop wl h l).1, t, (evict_loop wl h l).2⟩ =
        (rbHolds ⟨buf, h, t, l⟩).drop (l + wl - 4096) := by
  intro l
  induction l with
  | zero =>
    intro h buf t hh
    have h0 : 0 + wl - 4096 = 0 := by omega
    simp [evict_loop, rbHolds, h0]
  | succ m ih =>
    intro h buf t hh
    by_cases hc : m + 1 + wl > 4096
    · simp only [evict_loop]
      rw [if_pos hc, ih ((h + 1) % 4096) buf t (Nat.mod_lt _ (by norm_num)),
        rbHolds_step, List.drop_drop]
      have hamt : 1 + (m + wl - 4096) = m + 1 + wl - 4096 := by omega
      rw [hamt]
    · simp only [evict_loop]
      rw [if_neg hc]
      have h0 : m + 1 + wl - 4096 = 0 := by omega
      simp [h0]

theorem rbHolds_append_byte (buf : Nat → Nat) (h t l b : Nat)
    (hl : l < 4096) (_hh : h < 4096) (ht : t = (h + l) % 4096) :
    rbHolds ⟨fun j => if j = t then b else buf j, h, (t + 1) % 4096, l + 1⟩ =
      rbHolds ⟨buf, h, t, l⟩ ++ [b] := by
  unfold rbHolds
  simp only
  rw [List.range_succ, List.map_append]
  congr 1
  · apply List.map_congr_left
    intro i hi
    have hi' : i < l := List.mem_range.mp hi
    have hne : (h + i) % 4096 ≠ t := by
      rw [ht]
      omega
    simp [hne]
  · simp [ht]

theorem write_loop_spec :
    ∀ (m : List Nat) (buf : Nat → Nat) (h t l : Nat),
      l + m.length ≤ 4096 → h < 4096 → t = (h + l) % 4096 →
      rbHolds ⟨(write_loop buf t m).1, h, (write_loop buf t m).2, l + m.length⟩ =
        rbHolds ⟨buf, h, t, l⟩ ++ m ∧
      (write_loop buf t m).2 = (h + (l + m.length)) % 4096 := by
  intro m
  induction m with
  | nil =>
    intro buf h t l hle hh ht
    constructor
    · simp [write_loop]
    · simpa [write_loop] using ht
  | cons b rest ih =>
    intro buf h t l hle hh ht
    have hlen : l + (b :: rest).length = (l + 1) + rest.length := by
      simp only [List.length_cons]
      omega
    have ht' : (t + 1) % 4096 = (h + (l + 1)) % 4096 := by
      rw [ht, Nat.mod_add_mod]
      omega
    obtain ⟨ih1, ih2⟩ := ih (fun j => if j = t then b else buf j) h
      ((t + 1) % 4096) (l + 1) (by simp at hle ⊢; omega) hh ht'
    constructor
    · show rbHolds ⟨(write_loop (fun j => if j = t then b else buf j)
          ((t + 1) % 4096) rest).1, h,
          (write_loop (fun j => if j = t then b else buf j)
            ((t + 1) % 4096) rest).2, l + (b :: rest).length⟩ = _
      rw [hlen, ih1, rbHolds_append_byte buf h t l b (by simp at hle; omega) hh ht]
      simp
    · show (write_loop (fun j => if j = t then b else buf j)
          ((t + 1) % 4096) rest).2 = _
      rw [ih2, hlen]

theorem range_map_getD (l : List Nat) (s n : Nat) (hs : s + n = l.length) :
    (List.range n).map (fun i => l.getD (s + i) 0) = l.drop s := by
  apply List.ext_getElem
  · simp
    omega
  · intro i h1 h2
    simp only [List.getElem_map, List.getElem_range, List.getElem_drop]
    rw [List.getD_eq_getElem]

theorem kmsg_readat_le (r : RingBuffer) (offset bufLen : Nat) :
    (kmsg_readat r offset bufLen).1 ≤ r.len - offset ∧
    (offset ≥ r.len → (kmsg_readat r offset bufLen).1 = 0) := by
  unfold kmsg_readat
  by_cases h : offset ≥ r.len
  · rw [if_pos h]
    exact ⟨by omega, fun _ => rfl⟩
  · rw [if_neg h]
    exact ⟨by simp, fun hc => absurd hc h⟩

/-- C10: the kmsg ring buffer never stores more than 4096 bytes: after
push_message(m) the state is well formed, len ≤ 4096, the buffer holds
exactly the most recent min(|m| + previously retained, 4096) bytes of
(old contents ++ m), push_message returns min(|m|, 4096), and readat at
any offset returns at most len − offset bytes (0 once offset ≥ len). -/
theorem push_message_spec (r : RingBuffer) (m : List Nat) (hwf : rbWf r) :
    rbWf (push_message r m).1 ∧
    (push_message r m).1.len ≤ 4096 ∧
    (push_message r m).1.len = min (m.length + r.len) 4096 ∧
    rbHolds (push_message r m).1 =
      (rbHolds r ++ m).drop
        ((rbHolds r ++ m).length - min (m.length + r.len) 4096) ∧
    (push_message r m).2 = min m.length 4096 ∧
    (∀ offset bufLen,
      (kmsg_readat (push_message r m).1 offset bufLen).1 ≤
        (push_message r m).1.len - offset ∧
      (offset ≥ (push_message r m).1.len →
        (kmsg_readat (push_message r m).1 offset bufLen).1 = 0)) := by
  obtain ⟨hlen, hhead, htail⟩ := hwf
  by_cases hbig : m.length > 4096
  · have hpush : push_message r m =
        (({ buffer := fun i =>
                if i < 4096 then m.getD (m.length - 4096 + i) 0 else r.buffer i,
            head := 0, tail := 0, len := 4096 } : RingBuffer), 4096) := by
      unfold push_message
      rw [if_pos hbig]
    rw [hpush]
    have hmin : min (m.length + r.len) 4096 = 4096 := by omega
    have hmin2 : min m.length 4096 = 4096 := by omega
    refine ⟨⟨show (4096 : Nat) ≤ 4096 by decide, show (0 : Nat) < 4096 by decide,
      show (0 : Nat) = (0 + 4096) % 4096 by decide⟩,
      show (4096 : Nat) ≤ 4096 by decide, hmin.symm, ?_,
      hmin2.symm, fun offset bufLen => kmsg_readat_le _ offset bufLen⟩
    have hdropAmt : (rbHolds r ++ m).length - min (m.length + r.len) 4096 =
        (rbHolds r).length + (m.length - 4096) := by
      simp [rbHolds_length, hmin]
      omega
    rw [hdropAmt, List.drop_append]
    have hstep : rbHolds
        ({ buffer := fun i =>
              if i < 4096 then m.getD (m.length - 4096 + i) 0 else r.buffer i,
            head := 0, tail := 0, len := 4096 } : RingBuffer) =
        (List.range 4096).map (fun i => m.getD (m.length - 4096 + i) 0) := by
      unfold rbHolds
      apply List.map_congr_left
      intro i hi
      have hi' : i < 4096 := List.mem_range.mp hi
      simp [Nat.mod_eq_of_lt hi', hi']
    rw [hstep]
    exact range_map_getD m (m.length - 4096) 4096 (by omega)
  · have hwl : m.length ≤ 4096 := by omega
    have hev := evict_loop_spec m.length hwl r.len r.head hhead
    have hpush : push_message r m =
        (({ buffer := (write_loop r.buffer r.tail m).1,
            head := (evict_loop m.length r.head r.len).1,
            tail := (write_loop r.buffer r.tail m).2,
            len := (evict_loop m.length r.head r.len).2 + m.length } : RingBuffer),
          m.length) := by
      unfold push_message
      rw [if_neg (by omega)]
    set k := r.len + m.length - 4096 with hk
    have hev1 : (evict_loop m.length r.head r.len).1 = (r.head + k) % 4096 := by
      rw [hev]
    have hev2 : (evict_loop m.length r.head r.len).2 = r.len - k := by
      rw [hev]
    have hwrite := write_loop_spec m r.buffer ((r.head + k) % 4096) r.tail
      (r.len - k)
      (by omega) (Nat.mod_lt _ (by norm_num))
      (by
        rw [Nat.mod_add_mod, htail]
        omega)
    obtain ⟨hw1, hw2⟩ := hwrite
    rw [hpush]
    refine ⟨⟨?_, ?_, ?_⟩, ?_, ?_, ?_, ?_,
      fun offset bufLen => kmsg_readat_le _ offset bufLen⟩
    · show (evict_loop m.length r.head r.len).2 + m.length ≤ 4096
      rw [hev2]
      omega
    · show (evict_loop m.length r.head r.len).1 < 4096
      rw [hev1]
      exact Nat.mod_lt _ (by norm_num)
    · show (write_loop r.buffer r.tail m).2 =
        ((evict_loop m.length r.head r.len).1 +
          ((evict_loop m.length r.head r.len).2 + m.length)) % 4096
      rw [hev1, hev2, hw2, Nat.mod_add_mod]
    · show (evict_loop m.length r.head r.len).2 + m.length ≤ 4096
      rw [hev2]
      omega
    · show (evict_loop m.length r.head r.len).2 + m.length =
        min (m.length + r.len) 4096
      rw [hev2]
      omega
    · have hr : r = ⟨r.buffer, r.head, r.tail, r.len⟩ := rfl
      have hhold : rbHolds ⟨(write_loop r.buffer r.tail m).1,
          (evict_loop m.length r.head r.len).1,
          (write_loop r.buffer r.tail m).2,
          (evict_loop m.length r.head r.len).2 + m.length⟩ =
          rbHolds ⟨r.buffer, (r.head + k) % 4096, r.tail, r.len - k⟩ ++ m := by
        rw [hev1, hev2]
        exact hw1
      rw [hhold]
      have hevh : rbHolds ⟨r.buffer, (r.head + k) % 4096, r.tail, r.len - k⟩ =
          (rbHolds r).drop k := by
        have := rbHolds_evict m.length hwl r.len r.head r.buffer r.tail hhead
        rw [hev] at this
        simpa [hk] using this
      rw [hevh]
      have hamt : (rbHolds r ++ m).length - min (m.length + r.len) 4096 = k := by
        simp [rbHolds_length]
        omega
      rw [hamt, List.drop_append_of_le_length (by rw [rbHolds_length]; omega)]
    · show m.length = min m.length 4096
      omega

/-- C10 witness: pushing three bytes into the fresh buffer. -/
theorem push_message_spec_witness :
    rbWf dmesgInit ∧
    (rbWf (push_message dmesgInit [1, 2, 3]).1 ∧
      (push_message dmesgInit [1, 2, 3]).1.len ≤ 4096 ∧
      (push_message dmesgInit [1, 2, 3]).1.len =
        min ([1, 2, 3].length + dmesgInit.len) 4096 ∧
      rbHolds (push_message dmesgInit [1, 2, 3]).1 =
        (rbHolds dmesgInit ++ [1, 2, 3]).drop
          ((rbHolds dmesgInit ++ [1, 2, 3]).length -
            min ([1, 2, 3].length + dmesgInit.len) 4096) ∧
      (push_message dmesgInit [1, 2, 3]).2 = min [1, 2, 3].length 4096 ∧
      (∀ offset bufLen,
        (kmsg_readat (push_message dmesgInit [1, 2, 3]).1 offset bufLen).1 ≤
          (push_message dmesgInit [1, 2, 3]).1.len - offset ∧
        (offset ≥ (push_message dmesgInit [1, 2, 3]).1.len →
          (kmsg_readat (push_message dmesgInit [1, 2, 3]).1 offset bufLen).1 = 0))) :=
  ⟨by constructor <;> simp [dmesgInit],
    push_message_spec dmesgInit [1, 2, 3]
      (by constructor <;> simp [dmesgInit])⟩



/-! ### C1: from_elf on a single R+X PT_LOAD segment at 0x10000

The scenario of the single-segment claim, instantiated over arbitrary file
bytes, segment offset, file_size ≤ 8192, allocator origin and prior
physical memory contents. -/

def c1Elf (data : List Nat) (off fsz ep po ps pc : Nat) : ElfFile :=
  ⟨data, [⟨true, true, false, true, off, 0x10000, fsz, 8192⟩], ep, po, ps, pc⟩

def c1ElfArea : MappingArea :=
  ⟨16, 18, AreaType.UserElf, MapTy.Framed, [],
    (FLAG_VALID ||| FLAG_USER) ||| FLAG_READABLE ||| 0 ||| FLAG_EXECUTABLE⟩

def c1pt (n0 : Nat) : PageTbl :=
  (apply_mapping_from 16 2 c1ElfArea [] ⟨n0, []⟩).2.1

def c1mem (data : List Nat) (off fsz n0 : Nat) (mem0 : Mem) : Mem :=
  (activated_copy_data_to_other (c1pt n0) mem0 65536
    ((data.drop off).take fsz)).1

theorem c1_load (data : List Nat) (off fsz n0 : Nat) (mem0 : Mem) :
    List.foldl (load_ph data)
      ⟨{ MemorySpace.empty with kernel_registered := true }, ⟨n0, []⟩, mem0,
        USIZE_MAX, 0, 0⟩
      [⟨true, true, false, true, off, 0x10000, fsz, 8192⟩] =
      ⟨{ page_table := c1pt n0,
          mapping_areas :=
            [{ c1ElfArea with allocated_frames := [(16, n0), (17, n0 + 1)] }],
          brk_area_idx := USIZE_MAX,
          brk_start := USIZE_MAX,
          stack_guard_base := (USIZE_MAX, 0),
          stack_range := (USIZE_MAX, 0),
          stack_gurad_top := (USIZE_MAX, 0),
          elf_area := (USIZE_MAX, 0),
          kernel_registered := true },
        ⟨n0 + 2, []⟩, c1mem data off fsz n0 mem0, 16, 18, 65536⟩ := by
  simp only [List.foldl_cons, List.foldl_nil]
  unfold load_ph
  dsimp only
  rw [if_pos rfl]
  rw [map_area_bump _ _ _ rfl]
  norm_num [PAGE_SIZE, USIZE_MAX]
  simp [MemorySpace.empty, c1pt, c1mem, c1ElfArea, rampFrames,
    FLAG_VALID, FLAG_USER, FLAG_READABLE, FLAG_EXECUTABLE, USIZE_MAX]


def c1gb : MappingArea :=
  ⟨19, 20, AreaType.UserStackGuardBase, MapTy.Framed, [], 0⟩

def c1stk : MappingArea :=
  ⟨20, 276, AreaType.UserStack, MapTy.Framed, [],
    FLAG_VALID ||| FLAG_WRITABLE ||| FLAG_READABLE ||| FLAG_USER⟩

def c1gt : MappingArea :=
  ⟨276, 277, AreaType.UserStackGuardTop, MapTy.Framed, [], 0⟩

def c1pt2 (n0 : Nat) : PageTbl :=
  (apply_mapping_from 19 1 c1gb (c1pt n0) ⟨n0 + 2, []⟩).2.1

def c1pt3 (n0 : Nat) : PageTbl :=
  (apply_mapping_from 20 256 c1stk (c1pt2 n0) ⟨n0 + 3, []⟩).2.1

def c1pt4 (n0 : Nat) : PageTbl :=
  (apply_mapping_from 276 1 c1gt (c1pt3 n0) ⟨n0 + 259, []⟩).2.1

def c1msF (n0 : Nat) : MemorySpace :=
  { page_table := c1pt4 n0
    mapping_areas :=
      [{ c1ElfArea with allocated_frames := [(16, n0), (17, n0 + 1)] },
       { c1gb with allocated_frames := rampFrames 19 (n0 + 2) 1 },
       { c1stk with allocated_frames := rampFrames 20 (n0 + 3) 256 },
       { c1gt with allocated_frames := rampFrames 276 (n0 + 259) 1 },
       ⟨277, 277, AreaType.UserBrk, MapTy.Framed, [],
         FLAG_VALID ||| FLAG_WRITABLE ||| FLAG_READABLE ||| FLAG_USER⟩]
    brk_area_idx := 4
    brk_start := 277 * 4096
    stack_guard_base := (77824, 1126400)
    stack_range := (81920, 1130496)
    stack_gurad_top := (1130496, 1134592)
    elf_area := (65536, 73728)
    kernel_registered := true }

theorem c1_from_elf (data : List Nat) (off fsz ep po ps pc n0 : Nat)
    (mem0 : Mem) :
    from_elf (c1Elf data off fsz ep po ps pc) ⟨n0, []⟩ mem0 =
      (⟨c1msF n0, ep, 1130496, 0, 1130496, 1130496,
        elf_auxv (c1Elf data off fsz ep po ps pc) 65536⟩,
       ⟨n0 + 260, []⟩, c1mem data off fsz n0 mem0) := by
  unfold from_elf
  simp only [c1Elf]
  rw [c1_load]
  dsimp only
  norm_num [USER_STACK_SIZE, PAGE_SIZE]
  rw [place_guard_base_bump, place_stack_bump, place_guard_top_bump,
    place_brk_bump]
  simp only [c1msF, c1pt4, c1pt3, c1pt2, c1gb, c1stk, c1gt]
  norm_num [USIZE_MAX, USER_STACK_SIZE, PAGE_SIZE, List.findIdx, List.findIdx.go,
    c1ElfArea]
  rfl

theorem c1_translate_pt1 (n0 v : Nat) (h : 16 ≤ v ∧ v < 18) :
    translate (c1pt n0) v = some (n0 + (v - 16), c1ElfArea.permissions) := by
  unfold c1pt
  rw [apply_from_bump_translate 2 16 n0 c1ElfArea [] v (fun w _ => rfl)]
  rw [if_pos (by omega)]

theorem c1_translate_pt4 (n0 v : Nat) (h : 16 ≤ v ∧ v < 18) :
    translate (c1pt4 n0) v = some (n0 + (v - 16), c1ElfArea.permissions) := by
  unfold c1pt4
  rw [apply_from_bump_translate 1 276 (n0 + 259) c1gt (c1pt3 n0) v
    (fun w _ => rfl)]
  rw [if_neg (by omega)]
  unfold c1pt3
  rw [apply_from_bump_translate 256 20 (n0 + 3) c1stk (c1pt2 n0) v
    (fun w _ => rfl)]
  rw [if_neg (by omega)]
  unfold c1pt2
  rw [apply_from_bump_translate 1 19 (n0 + 2) c1gb (c1pt n0) v
    (fun w _ => rfl)]
  rw [if_neg (by omega)]
  exact c1_translate_pt1 n0 v h

theorem c1_physOf_pt1 (n0 i : Nat) (h : i < 8192) :
    physOf (c1pt n0) (65536 + i) = some (n0 * 4096 + i) := by
  unfold physOf
  have hv : 16 ≤ (65536 + i) / PAGE_SIZE ∧ (65536 + i) / PAGE_SIZE < 18 := by
    constructor <;> simp [PAGE_SIZE] <;> omega
  rw [c1_translate_pt1 n0 _ hv]
  simp only [Option.map_some', Option.some.injEq, Prod.mk.injEq, PAGE_SIZE]
  omega

theorem c1_physOf_pt4 (n0 i : Nat) (h : i < 8192) :
    physOf (c1pt4 n0) (65536 + i) = some (n0 * 4096 + i) := by
  unfold physOf
  have hv : 16 ≤ (65536 + i) / PAGE_SIZE ∧ (65536 + i) / PAGE_SIZE < 18 := by
    constructor <;> simp [PAGE_SIZE] <;> omega
  rw [c1_translate_pt4 n0 _ hv]
  simp only [Option.map_some', Option.some.injEq, Prod.mk.injEq, PAGE_SIZE]
  omega

theorem c1_mem_spec (data : List Nat) (off fsz n0 : Nat) (mem0 : Mem)
    (hfsz : fsz ≤ 8192) (x : Nat) :
    c1mem data off fsz n0 mem0 x =
      if n0 * 4096 ≤ x ∧
          x < n0 * 4096 + ((data.drop off).take fsz).length then
        ((data.drop off).take fsz).getD (x - n0 * 4096) 0
      else mem0 x := by
  unfold c1mem
  have hlen : ((data.drop off).take fsz).length ≤ 8192 := by
    simp only [List.length_take, List.length_drop]
    omega
  exact (copy_spec _ 65536 (n0 * 4096) (c1pt n0) mem0
    (fun i hi => c1_physOf_pt1 n0 i (lt_of_lt_of_le hi hlen))).1 x

theorem getD_take_drop (data : List Nat) (off fsz i : Nat) (h : i < fsz) :
    ((data.drop off).take fsz).getD i 0 = data.getD (off + i) 0 := by
  simp [List.getD_eq_getElem?_getD, List.getElem?_take, h, List.getElem?_drop]

theorem from_elf_single_load_core (data : List Nat)
    (off fsz ep po ps pc n0 : Nat) (mem0 : Mem)
    (hfsz : fsz ≤ 8192) (hin : off + fsz ≤ data.length) :
    ((from_elf (c1Elf data off fsz ep po ps pc) ⟨n0, []⟩
        mem0).1.memory_space.mapping_areas.filter
        (fun a => decide (a.area_type = AreaType.UserElf))).length = 1 ∧
    (from_elf (c1Elf data off fsz ep po ps pc) ⟨n0, []⟩
        mem0).1.memory_space.mapping_areas.get? 0 =
      some ⟨16, 18, AreaType.UserElf, MapTy.Framed,
        [(16, n0), (17, n0 + 1)], 27⟩ ∧
    ∀ o2, o2 < 8192 →
      readByte
        (from_elf (c1Elf data off fsz ep po ps pc) ⟨n0, []⟩
          mem0).1.memory_space.page_table
        (from_elf (c1Elf data off fsz ep po ps pc) ⟨n0, []⟩ mem0).2.2
        (65536 + o2) =
      some (if o2 < fsz then data.getD (off + o2) 0
        else mem0 (n0 * 4096 + o2)) := by
  rw [c1_from_elf]
  have hlen : ((data.drop off).take fsz).length = fsz := by
    simp only [List.length_take, List.length_drop]
    omega
  refine ⟨?_, ?_, ?_⟩
  · simp [c1msF, c1ElfArea, c1gb, c1stk, c1gt]
  · simp only [c1msF, c1ElfArea, List.get?]
    norm_num [FLAG_VALID, FLAG_USER, FLAG_READABLE, FLAG_EXECUTABLE]
    decide
  · intro o2 ho2
    show (physOf (c1msF n0).page_table (65536 + o2)).map
      (c1mem data off fsz n0 mem0) = _
    have hpt : (c1msF n0).page_table = c1pt4 n0 := rfl
    rw [hpt, c1_physOf_pt4 n0 o2 ho2]
    simp only [Option.map_some']
    rw [c1_mem_spec data off fsz n0 mem0 hfsz]
    by_cases hc : o2 < fsz
    · rw [if_pos (by rw [hlen]; omega), if_pos hc]
      have : n0 * 4096 + o2 - n0 * 4096 = o2 := by omega
      rw [this, getD_take_drop data off fsz o2 hc]
    · rw [if_neg (by rw [hlen]; omega), if_neg hc]

/-- C1 (corrected): loading an ELF whose single PT_LOAD segment sits at
virtual address 0x10000 with `mem_size` 8192 and flags R+X yields exactly
one UserElf mapping area covering the VPN range [0x10, 0x12) with exactly
two allocated frames, and the byte at `0x10000 + offset` reads back as the
segment's file byte for `offset < file_size`; for
`file_size ≤ offset < mem_size` it reads the allocated frame's previous
physical contents, not zero — the frames are handed out without being
zero-filled. -/
theorem from_elf_single_load_spec (data : List Nat)
    (off fsz ep po ps pc n0 : Nat) (mem0 : Mem)
    (hfsz : fsz ≤ 8192) (hin : off + fsz ≤ data.length) :
    ((from_elf (c1Elf data off fsz ep po ps pc) ⟨n0, []⟩
        mem0).1.memory_space.mapping_areas.filter
        (fun a => decide (a.area_type = AreaType.UserElf))).length = 1 ∧
    (from_elf (c1Elf data off fsz ep po ps pc) ⟨n0, []⟩
        mem0).1.memory_space.mapping_areas.get? 0 =
      some ⟨16, 18, AreaType.UserElf, MapTy.Framed,
        [(16, n0), (17, n0 + 1)], 27⟩ ∧
    ∀ o2, o2 < 8192 →
      readByte
        (from_elf (c1Elf data off fsz ep po ps pc) ⟨n0, []⟩
          mem0).1.memory_space.page_table
        (from_elf (c1Elf data off fsz ep po ps pc) ⟨n0, []⟩ mem0).2.2
        (65536 + o2) =
      some (if o2 < fsz then data.getD (off + o2) 0
        else mem0 (n0 * 4096 + o2)) :=
  from_elf_single_load_core data off fsz ep po ps pc n0 mem0 hfsz hin

/-- The spec's zero-fill reading of bss is wrong on the code: with every
physical byte previously 0x37, a segment with `file_size` 0 and `mem_size`
8192 reads back 0x37 at its first byte, not zero. -/
theorem from_elf_bss_not_zeroed_cx :
    readByte (from_elf (c1Elf [] 0 0 0 0 0 0) ⟨0, []⟩
        (fun _ => 0x37)).1.memory_space.page_table
      (from_elf (c1Elf [] 0 0 0 0 0 0) ⟨0, []⟩ (fun _ => 0x37)).2.2
      (65536 + 0) = some 0x37 ∧ (0x37 : Nat) ≠ 0 := by
  constructor
  · have h := (from_elf_single_load_core [] 0 0 0 0 0 0 0 (fun _ => 0x37)
      (by omega) (by simp)).2.2 0 (by omega)
    simpa using h
  · decide

theorem from_elf_single_load_spec_witness :
    ((1 : Nat) ≤ 8192 ∧ 0 + 1 ≤ List.length [9]) ∧
    readByte (from_elf (c1Elf [9] 0 1 0 0 0 0) ⟨5, []⟩
        (fun _ => 0)).1.memory_space.page_table
      (from_elf (c1Elf [9] 0 1 0 0 0 0) ⟨5, []⟩ (fun _ => 0)).2.2
      (65536 + 0) =
      some (if 0 < 1 then List.getD [9] (0 + 0) 0
        else (fun _ => (0 : Nat)) (5 * 4096 + 0)) :=
  ⟨⟨by decide, by decide⟩,
    (from_elf_single_load_spec [9] 0 1 0 0 0 0 5 (fun _ => 0)
      (by decide) (by decide)).2.2 0 (by decide)⟩

end BakaOS
